import Mathlib

/-!
# pd-trigger: a verification development of `main.go`

`pd-trigger` is a single Go file: it parses its command line, finds a YAML
configuration file, assembles one PagerDuty event and submits it.

The embedding below is shallow.  Every function of `main.go` is a Lean function
of the same name; the process is run against an explicit `World` holding all it
reads from outside (the result of `getopt.GetOpt`, the environment, the host
and user names, the generated UUID, the clock, the file system, the YAML
decoder and the PagerDuty client).  What the process does to the outside is
recorded as a list of `Effect`s, and `main` returns that list together with how
the process ended.

Go strings are byte strings; they are modelled by Lean `String`s.  The only
bytes the program inspects (`/`, `:`, `.`, the letters of the severity names)
are ASCII, for which the two views agree.
-/

namespace PdTrigger

/-! ## Library functions used by the program -/

/-- Go `strings.HasPrefix(s, p)`: `s` begins with `p`. -/
def strings.HasPrefix (s p : String) : Bool :=
  p.data.isPrefixOf s.data

/-- Go `strings.Join(elems, sep)`: the first element, then for every further
element the separator followed by that element; empty for no elements. -/
def strings.Join : List String → String → String
  | [], _ => ""
  | e :: rest, sep => rest.foldl (fun b s => b ++ sep ++ s) e

/-- Splitting loop of `strings.Split` for a one-byte separator: `cur` holds the
bytes of the piece being read, last byte first. -/
def strings.splitLoop (sep : Char) : List Char → List Char → List (List Char)
  | [], cur => [cur.reverse]
  | c :: cs, cur =>
    if c = sep then cur.reverse :: strings.splitLoop sep cs []
    else strings.splitLoop sep cs (c :: cur)

/-- Go `strings.Split(s, sep)` for a one-byte separator (the program only ever
splits on a colon): the pieces of `s` between separators, in order; one empty
piece for the empty string. -/
def strings.Split (s : String) (sep : Char) : List String :=
  (strings.splitLoop sep s.data []).map String.mk

/-- One step of the loop of Go `filepath.Clean` (Unix), element by element.
`out` is the cleaned path so far as a stack of elements, last element first. -/
def filepath.cleanStep (rooted : Bool) (out : List (List Char)) (e : List Char) :
    List (List Char) :=
  if e = [] ∨ e = ['.'] then out
  else if e = ['.', '.'] then
    match out with
    | top :: rest =>
      if top = ['.', '.'] then (if rooted then out else e :: out) else rest
    | [] => if rooted then out else [e]
  else e :: out

/-- Go `filepath.Clean` (Unix): drops empty and `.` elements, resolves `..`
against the element before it, keeps a leading slash, and turns the empty
result into `.`. -/
def filepath.Clean (path : String) : String :=
  if path = "" then "."
  else
    let rooted : Bool := path.data.head? = some '/'
    let out := ((strings.splitLoop '/' path.data []).foldl (filepath.cleanStep rooted) []).reverse
    let body := String.mk (List.intercalate ['/'] out)
    if rooted then "/" ++ body
    else if body = "" then "." else body

/-- Go `filepath.Join(elem...)`: the elements from the first non-empty one on,
joined with a slash and cleaned; empty when every element is empty. -/
def filepath.Join : List String → String
  | [] => ""
  | e :: rest =>
    if e = "" then filepath.Join rest else filepath.Clean (strings.Join (e :: rest) "/")

/-! ## Constants and texts of `main.go` -/

def clientName : String := "pd-trigger"
def clientURL : String := "https://github.com/rollcat/pd-trigger"

def SeverityCritical : String := "critical"
def SeverityWarning : String := "warning"
def SeverityError : String := "error"
def SeverityInfo : String := "info"

/-- The list the `-s` case of `main` ranges over, in source order. -/
def severities : List String :=
  [SeverityCritical, SeverityWarning, SeverityError, SeverityInfo]

/-- Go `pd.V2Payload`, with the fields the program fills. -/
structure V2Payload where
  Summary : String
  Source : String
  Severity : String
  Timestamp : String
  Component : String
  Group : String
  Class : String
  Details : List (String × String)
  deriving DecidableEq, Repr

/-- Go `pd.V2Event`, with the fields the program fills. -/
structure V2Event where
  RoutingKey : String
  Action : String
  DedupKey : String
  Images : List String
  Links : List String
  Client : String
  ClientURL : String
  Payload : V2Payload
  deriving DecidableEq, Repr

/-- What the process does to the outside world. -/
inductive Effect where
  /-- output of the builtin `print` and `println` -/
  | stderr (s : String)
  /-- output of `fmt.Printf` -/
  | stdout (s : String)
  /-- `os.Open(fname)` -/
  | osOpen (fname : String)
  /-- `pd.NewClient(authToken)` -/
  | newClient (authToken : String)
  /-- `client.SetDebugFlag(...)` -/
  | setDebugFlag
  /-- `client.ManageEvent(ev)` -/
  | manageEvent (ev : V2Event)
  /-- `client.LastAPIResponse()` -/
  | lastAPIResponse
  deriving DecidableEq, Repr

def usageText : String :=
  "Usage: pd-trigger [-h] [-k KEY] [-s SEVERITY] [other flags] <SUMMARY>"

def flagsText : String :=
  "Flags:\n" ++
  "    -h, --help      Print this help and exit\n" ++
  "    --help-setup    Print help about setting up the config/integration\n" ++
  "    --debug         Print verbose debug info useful for troubleshooting\n" ++
  "    -c, --config    Specify alternative .yml configuration file path\n" ++
  "                    (default: ~/.pd.yml, ~/.config/pagerduty.yml,\n" ++
  "                     /etc/xdg/pagerduty.yml; per $XDG_CONFIG_*)\n" ++
  "    -k, --key       Event deduplication key (default: random)\n" ++
  "    -s, --severity  One of: c, w, e, i (critical, warning, error, info)\n" ++
  "                    (default: info)\n" ++
  "    -S, --source    Source (default: current hostname)\n"

def setupText : String :=
  "Setup:\n\n" ++
  "1. Generate the auth token:\n" ++
  "    - Open your Pagerduty dashboard\n" ++
  "    - Integrations -> API Access Keys -> Create New API Key\n" ++
  "    - Description: pd-trigger\n" ++
  "    - Create Key\n\n" ++
  "2. Generate the integration key:\n" ++
  "    - Open your Pagerduty dashboard\n" ++
  "    - Services -> Service Directory\n" ++
  "    - Select a service, or create a new one\n" ++
  "    - Integrations\n" ++
  "    - \"Events API V2\" (create the integration if it does not exist)\n" ++
  "    - Integration Key\n\n" ++
  "3. Create ~/.config/pagerduty.yml (per XDG_CONFIG_HOME),\n" ++
  "   or /etc/xdg/pagerduty.yml (per XDG_CONFIG_DIRS),\n" ++
  "   with the following contents:\n\n" ++
  "    authtoken: \"<your auth token>\"\n" ++
  "    integrationkey: \"<your integration key>\"\n"

def severityText : String :=
  "Severity must be one of: critical, warning, error, info"

def troubleText : String :=
  "\nThis may indicate an error within this application, or (unlikely) an\n" ++
  "issue with PagerDuty itself. Check <https://status.pagerduty.com> and\n" ++
  "the issue tracker at <https://github.com/rollcat/pd-trigger/issues>."

/-- Go `helpUsage()`. -/
def helpUsage : List Effect := [.stderr (usageText ++ "\n")]

/-- Go `helpFull()`. -/
def helpFull : List Effect := helpUsage ++ [.stderr flagsText]

/-- Go `helpSetup()`. -/
def helpSetup : List Effect := [.stderr setupText]

/-! ## Data model -/

/-- Go `Config`. -/
structure Config where
  AuthToken : String
  IntegrationKey : String
  LogLevel : String
  deriving DecidableEq, Repr

/-- The zero value of `Config`, which `getConfig` starts from. -/
def Config.zero : Config := ⟨"", "", ""⟩

/-- One element of the options returned by `getopt.GetOpt`: `Opt()` and `Arg()`. -/
structure OptArg where
  opt : String
  arg : String
  deriving DecidableEq, Repr

/-- What `os.Open` followed by `io.ReadAll` gives for a path. -/
inductive File where
  | openErr (e : String)
  | readErr (e : String)
  | data (d : String)
  deriving DecidableEq, Repr

/-- The error side of `client.ManageEvent`: `err.Error()`, the `%#v` rendering
of the error, and what `client.LastAPIResponse()` holds (the rendering of the
raw response and its body) when it holds something. -/
structure ApiError where
  msg : String
  repr : String
  last : Option (String × String)
  deriving DecidableEq, Repr

/-- The result of `client.ManageEvent`: the `%#v` rendering of the response and
the error, if any. -/
structure ApiResult where
  resp : String
  err : Option ApiError
  deriving DecidableEq, Repr

/-- Everything the process reads from outside. -/
structure World where
  /-- the error returned by `getopt.GetOpt` -/
  getoptErr : Option String
  /-- the leftover positional arguments returned by `getopt.GetOpt` -/
  args : List String
  /-- the options returned by `getopt.GetOpt` -/
  opts : List OptArg
  /-- `os.Hostname()` -/
  hostname : String
  /-- `user.Current()`: the `Name` of the user, when there is one -/
  currentUser : Option String
  /-- `os.LookupEnv` -/
  env : String → Option String
  /-- `uuid.New().String()` -/
  uuid : String
  /-- `time.Now().Format(time.RFC3339)` -/
  now : String
  /-- the file system: what opening and reading a path gives -/
  fs : String → File
  /-- `yaml.Unmarshal(data, &config)`: the configuration after the call and the
  error returned -/
  unmarshal : String → Config → Config × Option String
  /-- `pd.NewClient(authToken)`, optionally `SetDebugFlag`, then `ManageEvent` -/
  api : String → Bool → V2Event → ApiResult

/-- Go `os.Getenv`. -/
def World.Getenv (w : World) (k : String) : String := (w.env k).getD ""

/-- Go `GetXdgConfigHome()`. -/
def GetXdgConfigHome (w : World) : String :=
  match w.env "XDG_CONFIG_HOME" with
  | some d => d
  | none => filepath.Join [w.Getenv "HOME", ".config"]

/-- Go `GetXdgConfigDirs()`. -/
def GetXdgConfigDirs (w : World) : List String :=
  let ds := match w.env "XDG_CONFIG_DIRS" with
    | some ds => ds
    | none => "/etc/xdg"
  strings.Split ds ':'

/-! ## `getConfig` -/

/-- What `getConfig` returns, with the effects it had. -/
structure ConfigResult where
  config : Config
  err : Option String
  trace : List Effect
  deriving DecidableEq, Repr

/-- The loop of Go `getConfig` over the candidates still to try.  `config` and
`err` are the named results, which every iteration writes to; the same
`config` is handed to `yaml.Unmarshal` by address in every iteration.  The
deferred `f.Close()` calls have no bearing on the result and are not recorded. -/
def getConfigLoop (w : World) (debug : Bool) :
    List String → Config → Option String → List Effect → ConfigResult
  | [], config, err, tr => ⟨config, err, tr⟩
  | fname :: rest, config, _, tr =>
    match w.fs fname with
    | .openErr e => getConfigLoop w debug rest config (some e) (tr ++ [.osOpen fname])
    | .readErr e => getConfigLoop w debug rest config (some e) (tr ++ [.osOpen fname])
    | .data d =>
      match w.unmarshal d config with
      | (config1, some e) =>
        getConfigLoop w debug rest config1 (some e) (tr ++ [.osOpen fname])
      | (config1, none) =>
        ⟨config1, none, tr ++ [.osOpen fname] ++
          (if debug then [.stdout ("Using config file: " ++ fname ++ "\n")] else [])⟩

/-- Go `getConfig(fnames...)`. -/
def getConfig (w : World) (debug : Bool) (fnames : List String) : ConfigResult :=
  getConfigLoop w debug fnames Config.zero none []

/-! ## `main` -/

/-- The variables of `main` that the option loop writes to (`debug` is the
global of that name). -/
structure St where
  configFnames : List String
  debug : Bool
  key : String
  severity : String
  source : String
  deriving DecidableEq, Repr

/-- How the process ends: `os.Exit(code)` (or returning from `main`, code 0),
or an unrecovered `panic`. -/
inductive Exit where
  | code (n : Nat)
  | panic (v : String)
  deriving DecidableEq, Repr

/-- The exit status the operating system sees; the Go runtime ends a panicking
process with status 2. -/
def Exit.status : Exit → Nat
  | .code n => n
  | .panic _ => 2

/-- A run of the process: its effects in order and how it ended. -/
structure Run where
  trace : List Effect
  exit : Exit
  deriving DecidableEq, Repr

/-- What one iteration of the `parseOpts` loop does. -/
inductive Step where
  /-- go on with the next option -/
  | next (st : St)
  /-- print and `os.Exit(code)` -/
  | exit (out : List Effect) (code : Nat)
  /-- the `default:` case -/
  | panic (v : String)
  deriving DecidableEq, Repr

/-- The values of the variables of `main` before the option loop
(lines 154 to 164). -/
def initSt (w : World) : St where
  configFnames :=
    [filepath.Join [w.Getenv "HOME", ".pd.yml"],
     filepath.Join [GetXdgConfigHome w, "pagerduty.yml"]] ++
    (GetXdgConfigDirs w).map (fun d => filepath.Join [d, "pagerduty.yml"])
  debug := false
  key := w.uuid
  severity := SeverityInfo
  source := w.hostname

/-- The inner loop of the `-s` case: the first name in the list that has `arg`
as a prefix, if there is one. -/
def severityLoop (arg : String) : List String → Option String
  | [] => none
  | s :: rest => if strings.HasPrefix s arg then some s else severityLoop arg rest

/-- The body of the `parseOpts` loop: the `switch` on `opt.Opt()`. -/
def parseOpt (st : St) (o : OptArg) : Step :=
  if o.opt = "-c" ∨ o.opt = "--config" then
    .next { st with configFnames := o.arg :: st.configFnames }
  else if o.opt = "--debug" then
    .next { st with debug := true }
  else if o.opt = "-h" ∨ o.opt = "--help" then
    .exit helpFull 0
  else if o.opt = "--help-setup" then
    .exit helpSetup 0
  else if o.opt = "-k" ∨ o.opt = "--key" then
    .next { st with key := o.arg }
  else if o.opt = "-s" ∨ o.opt = "--severity" then
    match severityLoop o.arg severities with
    | some s => .next { st with severity := s }
    | none => .exit ([.stderr (severityText ++ "\n")] ++ helpUsage) 2
  else if o.opt = "-S" ∨ o.opt = "--source" then
    .next { st with source := o.arg }
  else
    .panic o.opt

/-- The `parseOpts` loop over the options still to handle. -/
def parseOpts (st : St) : List OptArg → Step
  | [] => .next st
  | o :: rest =>
    match parseOpt st o with
    | .next st1 => parseOpts st1 rest
    | .exit out code => .exit out code
    | .panic v => .panic v

/-- The event built at lines 232 to 253. -/
def buildEvent (w : World) (st : St) (config : Config) (summary : String) : V2Event where
  RoutingKey := config.IntegrationKey
  Action := "trigger"
  DedupKey := st.key
  Images := []
  Links := []
  Client := clientName
  ClientURL := clientURL
  Payload :=
    { Summary := summary
      Source := st.source
      Severity := st.severity
      Timestamp := w.now
      Component := ""
      Group := ""
      Class := ""
      Details := [("hostname", w.hostname), ("username", w.currentUser.getD "")] }

/-- Lines 228 to 272 of `main`: the client, the event, the submission and the
report. `tr` holds the effects so far. -/
def submit (w : World) (tr : List Effect) (st : St) (config : Config) (summary : String) : Run :=
  let ev := buildEvent w st config summary
  let res := w.api config.AuthToken st.debug ev
  let tr1 := tr ++ [.newClient config.AuthToken] ++
    (if st.debug then [.setDebugFlag] else []) ++ [.manageEvent ev] ++
    (if st.debug then [.stdout ("Response: " ++ res.resp ++ "\n")] else [])
  match res.err with
  | none => ⟨tr1, .code 0⟩
  | some e =>
    ⟨tr1 ++ [.stdout ("Error:    " ++ e.msg ++ "\n"), .stdout ("          " ++ e.repr ++ "\n"),
        .lastAPIResponse] ++
      (match e.last with
       | some (rawr, body) =>
         [.stdout ("RawResp:  " ++ rawr ++ "\n"), .stdout ("          " ++ body ++ "\n")]
       | none => []) ++
      [.stderr (troubleText ++ "\n")], .code 1⟩

/-- Lines 213 to 272 of `main`: what happens once the option loop has run to
its end with the variables `st`. `tr` holds the effects so far. -/
def afterOpts (w : World) (tr : List Effect) (st : St) : Run :=
  let summary := strings.Join w.args " "
  if summary = "" then ⟨tr ++ helpUsage, .code 2⟩
  else
    let r := getConfig w st.debug st.configFnames
    if r.err ≠ none ∨ r.config.AuthToken = "" ∨ r.config.IntegrationKey = "" then
      ⟨tr ++ r.trace ++
        (match r.err with
         | some e => [.stdout ("Error: " ++ e ++ "\n")]
         | none => []) ++ helpSetup, .code 2⟩
    else submit w (tr ++ r.trace) st r.config summary

/-- What lines 143 to 146 print when `getopt.GetOpt` returned an error. -/
def getoptReport (w : World) : List Effect :=
  match w.getoptErr with
  | some e => .stderr (e ++ "\n") :: helpUsage
  | none => []

/-- Go `main()`. -/
def main (w : World) : Run :=
  match parseOpts (initSt w) w.opts with
  | .exit out code => ⟨getoptReport w ++ out, .code code⟩
  | .panic v => ⟨getoptReport w, .panic v⟩
  | .next st => afterOpts w (getoptReport w) st

/-! ## Vocabulary of the specification -/

/-- The arguments of the `-c` and `--config` options, in command-line order. -/
def configArgs (opts : List OptArg) : List String :=
  (opts.filter (fun o => o.opt = "-c" ∨ o.opt = "--config")).map (·.arg)

/-- The argument of the last option named `a` or `b`, if there is such an
option. -/
def lastArg (a b : String) (opts : List OptArg) : Option String :=
  ((opts.filter (fun o => o.opt = a ∨ o.opt = b)).getLast?).map (·.arg)

/-- The option is one of the flags declared in the call of `getopt.GetOpt`. -/
def declared (o : OptArg) : Prop :=
  o.opt ∈ ["-c", "--config", "--debug", "-h", "--help", "--help-setup", "-k", "--key",
    "-s", "--severity", "-S", "--source"]

instance (o : OptArg) : Decidable (declared o) := by
  unfold declared; infer_instance

/-- The option asks for one of the help texts. -/
def isHelp (o : OptArg) : Prop :=
  o.opt = "-h" ∨ o.opt = "--help" ∨ o.opt = "--help-setup"

instance (o : OptArg) : Decidable (isHelp o) := by
  unfold isHelp; infer_instance

/-- The option sets the severity. -/
def isSeverity (o : OptArg) : Prop :=
  o.opt = "-s" ∨ o.opt = "--severity"

instance (o : OptArg) : Decidable (isSeverity o) := by
  unfold isSeverity; infer_instance

/-- The argument is one that `getopt.GetOpt` hands over for an option taking
an argument: a non-empty word of the command line. The library returns no empty
argument: an empty word makes it panic inside the call of line 130, which `main`
does not recover from, so the process ends there with status 2 before the
option loop, and the long form with an equals sign and nothing after it takes
the following word. -/
def receivable (o : OptArg) : Prop :=
  o.arg ≠ ""

instance (o : OptArg) : Decidable (receivable o) := by
  unfold receivable; infer_instance

/-- The effect is printing, to either stream. -/
def Effect.isPrint : Effect → Bool
  | .stderr _ => true
  | .stdout _ => true
  | _ => false

/-- The effect is opening a configuration file. -/
def Effect.isOpen : Effect → Bool
  | .osOpen _ => true
  | _ => false

/-- The effect is a use of the PagerDuty client: constructing it, setting its
debug flag, submitting the event, or asking for the last response. -/
def Effect.isClient : Effect → Bool
  | .newClient _ => true
  | .setDebugFlag => true
  | .manageEvent _ => true
  | .lastAPIResponse => true
  | _ => false

/-- The effect is a call of `client.ManageEvent`. -/
def Effect.isSubmission : Effect → Bool
  | .manageEvent _ => true
  | _ => false

/-- The test of line 220 passes: no error, and both credentials non-empty. -/
def ConfigResult.ok (r : ConfigResult) : Prop :=
  r.err = none ∧ r.config.AuthToken ≠ "" ∧ r.config.IntegrationKey ≠ ""

instance (r : ConfigResult) : Decidable r.ok := by
  unfold ConfigResult.ok; infer_instance

/-- The candidate file, decoded on its own into an empty configuration, gives
both a non-empty auth token and a non-empty integration key. -/
def hasBoth (w : World) (fname : String) : Prop :=
  ∃ d, w.fs fname = .data d ∧ (w.unmarshal d Config.zero).1.AuthToken ≠ "" ∧
    (w.unmarshal d Config.zero).1.IntegrationKey ≠ ""

/-- The candidate opens, reads and decodes without error when decoded into the
configuration `c`. -/
def loads (w : World) (c : Config) (fname : String) : Prop :=
  ∃ d, w.fs fname = .data d ∧ (w.unmarshal d c).2 = none

/-- A failed decoding of a candidate leaves the configuration as it was. -/
def cleanFailures (w : World) (fnames : List String) : Prop :=
  ∀ fname ∈ fnames, ∀ d c e, w.fs fname = .data d → (w.unmarshal d c).2 = some e →
    (w.unmarshal d c).1 = c

/-- The words in order, with exactly one space between consecutive words and
nothing before the first or after the last. -/
def spaced : List String → List Char
  | [] => []
  | [a] => a.data
  | a :: b :: rest => a.data ++ ' ' :: spaced (b :: rest)

/-- The token with its ASCII upper-case letters turned to lower case. -/
def lower (tok : String) : String :=
  String.mk (tok.data.map Char.toLower)

/-! ## Concrete worlds -/

/-- An environment given as a list of variables and values. -/
def envOf (vars : List (String × String)) : String → Option String :=
  fun k => (vars.find? (fun p => p.1 = k)).map (·.2)

/-- What `yaml.Unmarshal` of `gopkg.in/yaml.v3` does with four sample documents
when decoding into a `Config`: a key that is present sets its field and the
other fields are left as they are; a value of the wrong type (the sequence given
for `loglevel`) makes the call return an error after the other fields have been
set; a document that is not YAML returns an error and sets nothing. -/
def sampleUnmarshal : String → Config → Config × Option String
  | "authtoken: tok\nintegrationkey: key\n", c =>
    ({ c with AuthToken := "tok", IntegrationKey := "key" }, none)
  | "authtoken: tok\n", c => ({ c with AuthToken := "tok" }, none)
  | "integrationkey: key\n", c => ({ c with IntegrationKey := "key" }, none)
  | "authtoken: tok\nloglevel: [1]\n", c =>
    ({ c with AuthToken := "tok" }, some "yaml: unmarshal errors")
  | _, c => (c, some "yaml: did not find expected key")

/-- The invocation `pd-trigger -s c -S myhost "disk full"` on the host `box` by
the user `Jo`, with `HOME=/home/jo`, no XDG variables, a valid configuration in
`/home/jo/.config/pagerduty.yml` and no other configuration file, and a client
whose submission succeeds. -/
def sampleWorld : World where
  getoptErr := none
  args := ["disk full"]
  opts := [⟨"-s", "c"⟩, ⟨"-S", "myhost"⟩]
  hostname := "box"
  currentUser := some "Jo"
  env := envOf [("HOME", "/home/jo")]
  uuid := "6ba7b810-9dad-11d1-80b4-00c04fd430c8"
  now := "2024-01-01T00:00:00Z"
  fs := fun p =>
    if p = "/home/jo/.config/pagerduty.yml" then .data "authtoken: tok\nintegrationkey: key\n"
    else .openErr ("open " ++ p ++ ": no such file or directory")
  unmarshal := sampleUnmarshal
  api := fun _ _ _ => ⟨"&pagerduty.V2EventResponse", none⟩

/-- The event submitted in `sampleWorld`. -/
def sampleEvent : V2Event where
  RoutingKey := "key"
  Action := "trigger"
  DedupKey := "6ba7b810-9dad-11d1-80b4-00c04fd430c8"
  Images := []
  Links := []
  Client := "pd-trigger"
  ClientURL := "https://github.com/rollcat/pd-trigger"
  Payload :=
    { Summary := "disk full"
      Source := "myhost"
      Severity := "critical"
      Timestamp := "2024-01-01T00:00:00Z"
      Component := ""
      Group := ""
      Class := ""
      Details := [("hostname", "box"), ("username", "Jo")] }

/-- The invocation `pd-trigger -c /srv/pd.yml "disk full"` where the file
`/srv/pd.yml` holds credentials of its own and the files of `sampleWorld` are
there as well. -/
def configWorld : World :=
  { sampleWorld with
    opts := [⟨"-c", "/srv/pd.yml"⟩]
    fs := fun p =>
      if p = "/srv/pd.yml" then .data "authtoken: srvtok\nintegrationkey: srvkey\n"
      else sampleWorld.fs p
    unmarshal := fun d c =>
      if d = "authtoken: srvtok\nintegrationkey: srvkey\n" then
        ({ c with AuthToken := "srvtok", IntegrationKey := "srvkey" }, none)
      else sampleUnmarshal d c }

/-- The invocation `pd-trigger -c /srv/pd.yml -c /srv/other.yml "disk full"`
where both files hold credentials, each its own, and the files of `sampleWorld`
are there as well. -/
def twoWorld : World :=
  { configWorld with
    opts := [⟨"-c", "/srv/pd.yml"⟩, ⟨"-c", "/srv/other.yml"⟩]
    fs := fun p =>
      if p = "/srv/other.yml" then .data "authtoken: othertok\nintegrationkey: otherkey\n"
      else configWorld.fs p
    unmarshal := fun d c =>
      if d = "authtoken: othertok\nintegrationkey: otherkey\n" then
        ({ c with AuthToken := "othertok", IntegrationKey := "otherkey" }, none)
      else configWorld.unmarshal d c }

/-- The invocation `pd-trigger -h "disk full"` with no configuration file
anywhere. -/
def helpWorld : World :=
  { sampleWorld with
    opts := [⟨"-h", ""⟩]
    fs := fun p => .openErr ("open " ++ p ++ ": no such file or directory") }

/-- The invocation `pd-trigger "disk full"` where `/home/jo/.pd.yml` holds only
the auth token and `/etc/xdg/pagerduty.yml` only the integration key. -/
def splitWorld : World :=
  { sampleWorld with
    opts := []
    fs := fun p =>
      if p = "/home/jo/.pd.yml" then .data "authtoken: tok\n"
      else if p = "/etc/xdg/pagerduty.yml" then .data "integrationkey: key\n"
      else .openErr ("open " ++ p ++ ": no such file or directory") }

/-- As `splitWorld`, but `/home/jo/.pd.yml` also gives a sequence for
`loglevel`, which `yaml.Unmarshal` reports as an error after it has set the
auth token. -/
def leakWorld : World :=
  { sampleWorld with
    opts := []
    fs := fun p =>
      if p = "/home/jo/.pd.yml" then .data "authtoken: tok\nloglevel: [1]\n"
      else if p = "/etc/xdg/pagerduty.yml" then .data "integrationkey: key\n"
      else .openErr ("open " ++ p ++ ": no such file or directory") }

/-- The invocation `pd-trigger -c /srv/pd.yml -c /srv/other.yml "disk full"`
with `HOME=/home/jo`, `XDG_CONFIG_HOME=/home/jo/cfg` and
`XDG_CONFIG_DIRS=/etc/xdg:/opt/etc`. -/
def xdgWorld : World :=
  { sampleWorld with
    opts := [⟨"-c", "/srv/pd.yml"⟩, ⟨"--config", "/srv/other.yml"⟩]
    env := envOf [("HOME", "/home/jo"), ("XDG_CONFIG_HOME", "/home/jo/cfg"),
      ("XDG_CONFIG_DIRS", "/etc/xdg:/opt/etc")] }

/-- As `sampleWorld`, with a client whose submission fails. -/
def failWorld : World :=
  { sampleWorld with
    api := fun _ _ _ =>
      ⟨"(*pagerduty.V2EventResponse)(nil)",
        some ⟨"HTTP response failed with status code 400", "pagerduty.APIError", none⟩⟩ }

/-! ## Lemmas on the severity loop -/

theorem severityLoop_eq_find (arg : String) (l : List String) :
    severityLoop arg l = l.find? (fun s => strings.HasPrefix s arg) := by
  induction l with
  | nil => rfl
  | cons s rest ih =>
    simp only [severityLoop, List.find?_cons]
    cases h : strings.HasPrefix s arg <;> simp [ih]

theorem severityLoop_some {arg s : String} {l : List String}
    (h : severityLoop arg l = some s) :
    ∃ pre post, l = pre ++ s :: post ∧ strings.HasPrefix s arg = true ∧
      ∀ x ∈ pre, strings.HasPrefix x arg = false := by
  induction l with
  | nil => simp [severityLoop] at h
  | cons a rest ih =>
    simp only [severityLoop] at h
    by_cases ha : strings.HasPrefix a arg = true
    · rw [if_pos ha] at h
      cases h
      exact ⟨[], rest, rfl, ha, by simp⟩
    · rw [if_neg ha] at h
      obtain ⟨pre, post, hl, hs, hpre⟩ := ih h
      refine ⟨a :: pre, post, by simp [hl], hs, ?_⟩
      intro x hx
      rcases List.mem_cons.mp hx with rfl | hx
      · simpa using ha
      · exact hpre x hx

theorem severityLoop_none {arg : String} {l : List String} :
    severityLoop arg l = none ↔ ∀ x ∈ l, strings.HasPrefix x arg = false := by
  induction l with
  | nil => simp [severityLoop]
  | cons a rest ih =>
    simp only [severityLoop, List.mem_cons, forall_eq_or_imp]
    by_cases ha : strings.HasPrefix a arg = true
    · simp [ha]
    · rw [if_neg ha, ih]
      simp at ha
      simp [ha]

theorem severityLoop_mem {arg s : String} {l : List String}
    (h : severityLoop arg l = some s) : s ∈ l := by
  obtain ⟨pre, post, hl, -, -⟩ := severityLoop_some h
  simp [hl]

/-! ## Lemmas on the option loop -/

theorem parseOpt_next_fields {st st1 : St} {o : OptArg} (h : parseOpt st o = .next st1) :
    st1.configFnames =
        (if o.opt = "-c" ∨ o.opt = "--config" then o.arg :: st.configFnames
         else st.configFnames) ∧
      st1.key = (if o.opt = "-k" ∨ o.opt = "--key" then o.arg else st.key) ∧
      st1.source = (if o.opt = "-S" ∨ o.opt = "--source" then o.arg else st.source) ∧
      (if o.opt = "-s" ∨ o.opt = "--severity" then
          severityLoop o.arg severities = some st1.severity
        else st1.severity = st.severity) ∧
      st1.debug = (st.debug || decide (o.opt = "--debug")) := by
  unfold parseOpt at h
  split_ifs at h with h1 h2 h3 h4 h5 h6 h7
  · cases h
    rcases h1 with h1 | h1 <;> simp [h1]
  · cases h
    simp [h2]
  · cases h
    rcases h5 with h5 | h5 <;> simp [h5]
  · split at h
    · cases h
      rename_i s hs
      rcases h6 with h6 | h6 <;> simp [h6, hs]
    · cases h
  · cases h
    rcases h7 with h7 | h7 <;> simp [h7]

theorem parseOpts_cons_next {st st2 : St} {o : OptArg} {rest : List OptArg}
    (h : parseOpts st (o :: rest) = .next st2) :
    ∃ st1, parseOpt st o = .next st1 ∧ parseOpts st1 rest = .next st2 := by
  simp only [parseOpts] at h
  split at h
  · rename_i st1 h1
    exact ⟨st1, h1, h⟩
  · cases h
  · cases h

theorem lastArg_cons (a b : String) (o : OptArg) (rest : List OptArg) :
    lastArg a b (o :: rest) =
      match lastArg a b rest with
      | some x => some x
      | none => if o.opt = a ∨ o.opt = b then some o.arg else none := by
  unfold lastArg
  by_cases ho : o.opt = a ∨ o.opt = b
  · rw [List.filter_cons_of_pos (by simpa using ho), List.getLast?_cons]
    cases hl : (rest.filter fun o => decide (o.opt = a ∨ o.opt = b)).getLast? <;> simp [ho]
  · rw [List.filter_cons_of_neg (by simpa using ho)]
    cases hl : (rest.filter fun o => decide (o.opt = a ∨ o.opt = b)).getLast? <;> simp [ho]

theorem configArgs_cons (o : OptArg) (rest : List OptArg) :
    configArgs (o :: rest) =
      if o.opt = "-c" ∨ o.opt = "--config" then o.arg :: configArgs rest
      else configArgs rest := by
  unfold configArgs
  by_cases ho : o.opt = "-c" ∨ o.opt = "--config"
  · rw [List.filter_cons_of_pos (by simpa using ho)]; simp [ho]
  · rw [List.filter_cons_of_neg (by simpa using ho)]; simp [ho]

theorem parseOpts_next_fields {opts : List OptArg} {st st2 : St}
    (h : parseOpts st opts = .next st2) :
    st2.configFnames = (configArgs opts).reverse ++ st.configFnames ∧
      st2.key = (lastArg "-k" "--key" opts).getD st.key ∧
      st2.source = (lastArg "-S" "--source" opts).getD st.source ∧
      (match lastArg "-s" "--severity" opts with
        | some tok => severityLoop tok severities = some st2.severity
        | none => st2.severity = st.severity) ∧
      st2.debug = (st.debug || opts.any (fun o => decide (o.opt = "--debug"))) := by
  induction opts generalizing st with
  | nil =>
    simp only [parseOpts] at h
    cases h
    simp [configArgs, lastArg]
  | cons o rest ih =>
    obtain ⟨st1, h1, h2⟩ := parseOpts_cons_next h
    obtain ⟨hc, hk, hS, hs, hd⟩ := parseOpt_next_fields h1
    obtain ⟨ic, ik, iS, is, id⟩ := ih h2
    refine ⟨?_, ?_, ?_, ?_, ?_⟩
    · rw [ic, hc, configArgs_cons]
      split_ifs <;> simp
    · rw [ik, hk, lastArg_cons]
      cases lastArg "-k" "--key" rest <;> simp; split_ifs <;> simp
    · rw [iS, hS, lastArg_cons]
      cases lastArg "-S" "--source" rest <;> simp; split_ifs <;> simp
    · rw [lastArg_cons]
      cases hl : lastArg "-s" "--severity" rest with
      | some x => simpa [hl] using is
      | none =>
        simp only [hl] at is ⊢
        split_ifs at hs ⊢ with ho
        · simpa [is] using hs
        · simp [is, hs]
    · rw [id, hd]
      simp [Bool.or_assoc]

/-- Whatever the option loop prints before exiting goes to standard error, and
it exits with code 0 or 2. -/
theorem parseOpt_exit {st : St} {o : OptArg} {out : List Effect} {code : Nat}
    (h : parseOpt st o = .exit out code) :
    (isHelp o ∧ code = 0 ∧ (out = helpFull ∨ out = helpSetup)) ∨
      (isSeverity o ∧ severityLoop o.arg severities = none ∧ code = 2 ∧
        out = [.stderr (severityText ++ "\n")] ++ helpUsage) := by
  unfold parseOpt at h
  split_ifs at h with h1 h2 h3 h4 h5 h6 h7
  · cases h
    exact Or.inl ⟨by unfold isHelp; tauto, rfl, Or.inl rfl⟩
  · cases h
    exact Or.inl ⟨by unfold isHelp; tauto, rfl, Or.inr rfl⟩
  · split at h
    · cases h
    · rename_i hs
      cases h
      exact Or.inr ⟨h6, hs, rfl, rfl⟩

theorem parseOpt_panic {st : St} {o : OptArg} {v : String}
    (h : parseOpt st o = .panic v) : ¬ declared o := by
  unfold parseOpt at h
  unfold declared
  split_ifs at h with h1 h2 h3 h4 h5 h6 h7
  · split at h <;> cases h
  · simp only [List.mem_cons, List.mem_singleton, not_or] at *
    simp
    tauto

theorem parseOpts_append (st : St) (pre rest : List OptArg) :
    parseOpts st (pre ++ rest) =
      match parseOpts st pre with
      | .next st1 => parseOpts st1 rest
      | .exit out code => .exit out code
      | .panic v => .panic v := by
  induction pre generalizing st with
  | nil => simp [parseOpts]
  | cons o pre ih =>
    simp only [List.cons_append, parseOpts]
    cases parseOpt st o with
    | next st1 => simpa using ih st1
    | exit out code => rfl
    | panic v => rfl

/-- The option loop stops at the first option whose case does not go on. -/
theorem parseOpts_stop {opts : List OptArg} {st : St} {r : Step}
    (h : parseOpts st opts = r) (hr : ∀ st2, r ≠ .next st2) :
    ∃ pre o post st1, opts = pre ++ o :: post ∧ parseOpts st pre = .next st1 ∧
      parseOpt st1 o = r := by
  induction opts generalizing st with
  | nil => exact absurd h.symm (hr st)
  | cons o rest ih =>
    simp only [parseOpts] at h
    cases h1 : parseOpt st o with
    | next st1 =>
      rw [h1] at h
      obtain ⟨pre, o2, post, st2, ho, hp, hs⟩ := ih h
      refine ⟨o :: pre, o2, post, st2, by simp [ho], ?_, hs⟩
      simp [parseOpts, h1, hp]
    | exit out code =>
      rw [h1] at h
      exact ⟨[], o, rest, st, rfl, rfl, by rw [h1]; exact h⟩
    | panic v =>
      rw [h1] at h
      exact ⟨[], o, rest, st, rfl, rfl, by rw [h1]; exact h⟩

/-! ## Lemmas on `main` -/

theorem getoptReport_print (w : World) : ∀ e ∈ getoptReport w, e.isPrint = true := by
  intro e he
  unfold getoptReport at he
  cases hw : w.getoptErr with
  | none => simp [hw] at he
  | some x =>
    simp only [hw, helpUsage, List.mem_cons, List.mem_singleton] at he
    rcases he with rfl | rfl | he
    · rfl
    · rfl
    · simp at he

theorem isPrint_not_client {e : Effect} (h : e.isPrint = true) :
    e.isClient = false ∧ e.isOpen = false ∧ e.isSubmission = false := by
  cases e <;> simp_all [Effect.isPrint, Effect.isClient, Effect.isOpen, Effect.isSubmission]

/-- The three ways the option loop can end, and what `main` is in each. -/
theorem main_cases (w : World) :
    (∃ pre o post st1 out code, w.opts = pre ++ o :: post ∧
        parseOpts (initSt w) pre = .next st1 ∧ parseOpt st1 o = .exit out code ∧
        main w = ⟨getoptReport w ++ out, .code code⟩) ∨
      (∃ pre o post st1 v, w.opts = pre ++ o :: post ∧
        parseOpts (initSt w) pre = .next st1 ∧ parseOpt st1 o = .panic v ∧
        main w = ⟨getoptReport w, .panic v⟩) ∨
      (∃ st, parseOpts (initSt w) w.opts = .next st ∧
        main w = afterOpts w (getoptReport w) st) := by
  cases h : parseOpts (initSt w) w.opts with
  | next st =>
    right; right
    exact ⟨st, rfl, by simp [main, h]⟩
  | exit out code =>
    left
    obtain ⟨pre, o, post, st1, ho, hp, hs⟩ := parseOpts_stop h (by simp)
    exact ⟨pre, o, post, st1, out, code, ho, hp, hs, by simp [main, h]⟩
  | panic v =>
    right; left
    obtain ⟨pre, o, post, st1, ho, hp, hs⟩ := parseOpts_stop h (by simp)
    exact ⟨pre, o, post, st1, v, ho, hp, hs, by simp [main, h]⟩

theorem getConfigLoop_openErr {w : World} {debug : Bool} {f : String} {rest : List String}
    {c : Config} {e0 : Option String} {tr : List Effect} {e : String}
    (hf : w.fs f = .openErr e) :
    getConfigLoop w debug (f :: rest) c e0 tr =
      getConfigLoop w debug rest c (some e) (tr ++ [.osOpen f]) := by
  simp [getConfigLoop, hf]

theorem getConfigLoop_readErr {w : World} {debug : Bool} {f : String} {rest : List String}
    {c : Config} {e0 : Option String} {tr : List Effect} {e : String}
    (hf : w.fs f = .readErr e) :
    getConfigLoop w debug (f :: rest) c e0 tr =
      getConfigLoop w debug rest c (some e) (tr ++ [.osOpen f]) := by
  simp [getConfigLoop, hf]

theorem getConfigLoop_decodeErr {w : World} {debug : Bool} {f : String} {rest : List String}
    {c : Config} {e0 : Option String} {tr : List Effect} {d e : String}
    (hf : w.fs f = .data d) (hu : (w.unmarshal d c).2 = some e) :
    getConfigLoop w debug (f :: rest) c e0 tr =
      getConfigLoop w debug rest (w.unmarshal d c).1 (some e) (tr ++ [.osOpen f]) := by
  rcases hx : w.unmarshal d c with ⟨c1, e1⟩
  rw [hx] at hu
  simp only at hu
  subst hu
  simp [getConfigLoop, hf, hx]

theorem getConfigLoop_decoded {w : World} {debug : Bool} {f : String} {rest : List String}
    {c : Config} {e0 : Option String} {tr : List Effect} {d : String}
    (hf : w.fs f = .data d) (hu : (w.unmarshal d c).2 = none) :
    getConfigLoop w debug (f :: rest) c e0 tr =
      ⟨(w.unmarshal d c).1, none, tr ++ [.osOpen f] ++
        (if debug then [.stdout ("Using config file: " ++ f ++ "\n")] else [])⟩ := by
  rcases hx : w.unmarshal d c with ⟨c1, e1⟩
  rw [hx] at hu
  simp only at hu
  subst hu
  simp [getConfigLoop, hf, hx]

/-- The effects of `getConfig` are those before it, then opening files and
printing. -/
theorem getConfigLoop_trace (w : World) (debug : Bool) (fnames : List String) (c : Config)
    (e0 : Option String) (tr : List Effect) :
    ∃ extra, (getConfigLoop w debug fnames c e0 tr).trace = tr ++ extra ∧
      ∀ e ∈ extra, e.isClient = false ∧ e.isSubmission = false := by
  induction fnames generalizing c e0 tr with
  | nil => exact ⟨[], by simp [getConfigLoop], by simp⟩
  | cons f rest ih =>
    have step : ∀ c1 e, ∃ extra,
        (getConfigLoop w debug rest c1 (some e) (tr ++ [.osOpen f])).trace = tr ++ extra ∧
          ∀ e ∈ extra, e.isClient = false ∧ e.isSubmission = false := by
      intro c1 e
      obtain ⟨extra, h1, h2⟩ := ih c1 (some e) (tr ++ [.osOpen f])
      refine ⟨.osOpen f :: extra, by simp [h1], ?_⟩
      intro x hx
      rcases List.mem_cons.mp hx with rfl | hx
      · exact ⟨rfl, rfl⟩
      · exact h2 x hx
    cases hf : w.fs f with
    | openErr e => rw [getConfigLoop_openErr hf]; exact step c e
    | readErr e => rw [getConfigLoop_readErr hf]; exact step c e
    | data d =>
      cases hu : (w.unmarshal d c).2 with
      | none =>
        rw [getConfigLoop_decoded hf hu]
        refine ⟨[.osOpen f] ++
          (if debug then [.stdout ("Using config file: " ++ f ++ "\n")] else []), by simp, ?_⟩
        intro x hx
        cases debug <;> simp at hx
        · subst hx; exact ⟨rfl, rfl⟩
        · rcases hx with rfl | rfl <;> exact ⟨rfl, rfl⟩
      | some e => rw [getConfigLoop_decodeErr hf hu]; exact step _ e

theorem afterOpts_empty {w : World} {tr : List Effect} {st : St}
    (h : strings.Join w.args " " = "") :
    afterOpts w tr st = ⟨tr ++ helpUsage, .code 2⟩ := by
  simp [afterOpts, h]

theorem afterOpts_badConfig {w : World} {tr : List Effect} {st : St}
    (h : strings.Join w.args " " ≠ "") (hr : ¬ (getConfig w st.debug st.configFnames).ok) :
    afterOpts w tr st =
      ⟨tr ++ (getConfig w st.debug st.configFnames).trace ++
        (match (getConfig w st.debug st.configFnames).err with
         | some e => [.stdout ("Error: " ++ e ++ "\n")]
         | none => []) ++ helpSetup, .code 2⟩ := by
  have hc : (getConfig w st.debug st.configFnames).err ≠ none ∨
      (getConfig w st.debug st.configFnames).config.AuthToken = "" ∨
      (getConfig w st.debug st.configFnames).config.IntegrationKey = "" := by
    unfold ConfigResult.ok at hr
    by_contra hn
    simp only [not_or, not_not] at hn
    exact hr ⟨hn.1, hn.2.1, hn.2.2⟩
  simp only [afterOpts, h, if_false, hc, if_true]

theorem afterOpts_submit {w : World} {tr : List Effect} {st : St}
    (h : strings.Join w.args " " ≠ "") (hr : (getConfig w st.debug st.configFnames).ok) :
    afterOpts w tr st =
      submit w (tr ++ (getConfig w st.debug st.configFnames).trace) st
        (getConfig w st.debug st.configFnames).config (strings.Join w.args " ") := by
  have hc : ¬ ((getConfig w st.debug st.configFnames).err ≠ none ∨
      (getConfig w st.debug st.configFnames).config.AuthToken = "" ∨
      (getConfig w st.debug st.configFnames).config.IntegrationKey = "") := by
    obtain ⟨h1, h2, h3⟩ := hr
    simp [h1, h2, h3]
  simp only [afterOpts, h, if_false, hc]

theorem submit_ok {w : World} {tr : List Effect} {st : St} {c : Config} {s : String}
    (h : (w.api c.AuthToken st.debug (buildEvent w st c s)).err = none) :
    submit w tr st c s =
      ⟨tr ++ [.newClient c.AuthToken] ++ (if st.debug then [.setDebugFlag] else []) ++
        [.manageEvent (buildEvent w st c s)] ++
        (if st.debug then
          [.stdout ("Response: " ++
            (w.api c.AuthToken st.debug (buildEvent w st c s)).resp ++ "\n")]
         else []), .code 0⟩ := by
  simp only [submit, h]

theorem submit_err {w : World} {tr : List Effect} {st : St} {c : Config} {s : String}
    {e : ApiError} (h : (w.api c.AuthToken st.debug (buildEvent w st c s)).err = some e) :
    submit w tr st c s =
      ⟨tr ++ [.newClient c.AuthToken] ++ (if st.debug then [.setDebugFlag] else []) ++
        [.manageEvent (buildEvent w st c s)] ++
        (if st.debug then
          [.stdout ("Response: " ++
            (w.api c.AuthToken st.debug (buildEvent w st c s)).resp ++ "\n")]
         else []) ++
        [.stdout ("Error:    " ++ e.msg ++ "\n"), .stdout ("          " ++ e.repr ++ "\n"),
          .lastAPIResponse] ++
        (match e.last with
         | some (rawr, body) =>
           [.stdout ("RawResp:  " ++ rawr ++ "\n"), .stdout ("          " ++ body ++ "\n")]
         | none => []) ++
        [.stderr (troubleText ++ "\n")], .code 1⟩ := by
  simp only [submit, h]

/-- The effects of the submission step: the client is made, the event is
submitted once, and what follows is printing and asking for the last response. -/
theorem submit_trace (w : World) (tr : List Effect) (st : St) (c : Config) (s : String) :
    ∃ a b, (submit w tr st c s).trace =
        tr ++ a ++ [.manageEvent (buildEvent w st c s)] ++ b ∧
      (∀ e ∈ a, e.isSubmission = false) ∧ (∀ e ∈ b, e.isSubmission = false) := by
  refine ⟨[.newClient c.AuthToken] ++ (if st.debug then [.setDebugFlag] else []), ?_⟩
  have ha : ∀ e ∈ [Effect.newClient c.AuthToken] ++
      (if st.debug then [Effect.setDebugFlag] else []), e.isSubmission = false := by
    cases st.debug <;> simp [Effect.isSubmission]
  cases hres : (w.api c.AuthToken st.debug (buildEvent w st c s)).err with
  | none =>
    rw [submit_ok hres]
    refine ⟨_, by simp only [List.append_assoc]; rfl, ha, ?_⟩
    cases st.debug <;> simp [Effect.isSubmission]
  | some err =>
    rw [submit_err hres]
    refine ⟨_, by simp only [List.append_assoc]; rfl, ha, ?_⟩
    rcases err.last with _ | ⟨rawr, body⟩ <;> cases st.debug <;> simp [Effect.isSubmission]

theorem submit_exit (w : World) (tr : List Effect) (st : St) (c : Config) (s : String) :
    (submit w tr st c s).exit =
      match (w.api c.AuthToken st.debug (buildEvent w st c s)).err with
      | none => .code 0
      | some _ => .code 1 := by
  cases hres : (w.api c.AuthToken st.debug (buildEvent w st c s)).err with
  | none => rw [submit_ok hres]
  | some err => rw [submit_err hres]

theorem parseOpt_exit_print {st : St} {o : OptArg} {out : List Effect} {code : Nat}
    (h : parseOpt st o = .exit out code) : ∀ e ∈ out, e.isPrint = true := by
  rcases parseOpt_exit h with ⟨-, -, rfl | rfl⟩ | ⟨-, -, -, rfl⟩ <;>
    simp [helpFull, helpUsage, helpSetup, Effect.isPrint]

theorem getConfig_trace (w : World) (debug : Bool) (fnames : List String) :
    ∀ e ∈ (getConfig w debug fnames).trace, e.isClient = false ∧ e.isSubmission = false := by
  obtain ⟨extra, h1, h2⟩ := getConfigLoop_trace w debug fnames Config.zero none []
  intro e he
  unfold getConfig at he
  rw [h1] at he
  exact h2 e (by simpa using he)

/-- The five ways a run of `main` can go: an option exits, an option panics, the
summary is empty, the configuration does not pass the test of line 220, or the
event is submitted. -/
theorem main_cases_full (w : World) :
    (∃ pre o post st1 out code, w.opts = pre ++ o :: post ∧
        parseOpts (initSt w) pre = .next st1 ∧ parseOpt st1 o = .exit out code ∧
        main w = ⟨getoptReport w ++ out, .code code⟩) ∨
      (∃ pre o post st1 v, w.opts = pre ++ o :: post ∧
        parseOpts (initSt w) pre = .next st1 ∧ parseOpt st1 o = .panic v ∧
        main w = ⟨getoptReport w, .panic v⟩) ∨
      (∃ st, parseOpts (initSt w) w.opts = .next st ∧ strings.Join w.args " " = "" ∧
        main w = ⟨getoptReport w ++ helpUsage, .code 2⟩) ∨
      (∃ st, parseOpts (initSt w) w.opts = .next st ∧ strings.Join w.args " " ≠ "" ∧
        ¬ (getConfig w st.debug st.configFnames).ok ∧
        main w = ⟨getoptReport w ++ (getConfig w st.debug st.configFnames).trace ++
          (match (getConfig w st.debug st.configFnames).err with
           | some e => [.stdout ("Error: " ++ e ++ "\n")]
           | none => []) ++ helpSetup, .code 2⟩) ∨
      (∃ st, parseOpts (initSt w) w.opts = .next st ∧ strings.Join w.args " " ≠ "" ∧
        (getConfig w st.debug st.configFnames).ok ∧
        main w = submit w (getoptReport w ++ (getConfig w st.debug st.configFnames).trace) st
          (getConfig w st.debug st.configFnames).config (strings.Join w.args " ")) := by
  rcases main_cases w with h | h | ⟨st, hst, hm⟩
  · exact Or.inl h
  · exact Or.inr (Or.inl h)
  · right; right
    by_cases hs : strings.Join w.args " " = ""
    · exact Or.inl ⟨st, hst, hs, by rw [hm, afterOpts_empty hs]⟩
    · by_cases hr : (getConfig w st.debug st.configFnames).ok
      · exact Or.inr (Or.inr ⟨st, hst, hs, hr, by rw [hm, afterOpts_submit hs hr]⟩)
      · exact Or.inr (Or.inl ⟨st, hst, hs, hr, by rw [hm, afterOpts_badConfig hs hr]⟩)

/-- The effects of a run that ends before the client is made contain no client
effect. -/
theorem badConfig_trace (w : World) (st : St) :
    ∀ e ∈ getoptReport w ++ (getConfig w st.debug st.configFnames).trace ++
        (match (getConfig w st.debug st.configFnames).err with
         | some e => [Effect.stdout ("Error: " ++ e ++ "\n")]
         | none => []) ++ helpSetup,
      e.isClient = false ∧ e.isSubmission = false := by
  intro e he
  simp only [List.mem_append] at he
  rcases he with ((he | he) | he) | he
  · have := isPrint_not_client (getoptReport_print w e he)
    exact ⟨this.1, this.2.2⟩
  · exact getConfig_trace w _ _ e he
  · cases hx : (getConfig w st.debug st.configFnames).err with
    | none => simp [hx] at he
    | some x =>
      simp only [hx, List.mem_singleton] at he
      subst he
      exact ⟨rfl, rfl⟩
  · simp only [helpSetup, List.mem_singleton] at he
    subst he
    exact ⟨rfl, rfl⟩

/-- A run in which `client.ManageEvent` is called went through the option loop,
had a non-empty summary and a configuration passing the test of line 220, and
submitted the event built from them. -/
theorem main_submission {w : World} {ev : V2Event}
    (h : Effect.manageEvent ev ∈ (main w).trace) :
    ∃ st, parseOpts (initSt w) w.opts = .next st ∧ strings.Join w.args " " ≠ "" ∧
      (getConfig w st.debug st.configFnames).ok ∧
      ev = buildEvent w st (getConfig w st.debug st.configFnames).config
        (strings.Join w.args " ") ∧
      main w = submit w (getoptReport w ++ (getConfig w st.debug st.configFnames).trace) st
        (getConfig w st.debug st.configFnames).config (strings.Join w.args " ") := by
  have key : ∀ l : List Effect, (∀ e ∈ l, e.isSubmission = false) →
      Effect.manageEvent ev ∉ l := by
    intro l hl hmem
    have := hl _ hmem
    simp [Effect.isSubmission] at this
  have hprint : ∀ l : List Effect, (∀ e ∈ l, e.isPrint = true) →
      ∀ e ∈ l, e.isSubmission = false := fun l hl e he => (isPrint_not_client (hl e he)).2.2
  rcases main_cases_full w with ⟨pre, o, post, st1, out, code, -, -, hx, hm⟩ |
    ⟨pre, o, post, st1, v, -, -, -, hm⟩ | ⟨st, -, -, hm⟩ | ⟨st, -, -, -, hm⟩ |
    ⟨st, hst, hs, hr, hm⟩
  · rw [hm] at h
    refine absurd h (key _ (hprint _ ?_))
    intro e he
    rcases List.mem_append.mp he with he | he
    · exact getoptReport_print w e he
    · exact parseOpt_exit_print hx e he
  · rw [hm] at h
    exact absurd h (key _ (hprint _ (getoptReport_print w)))
  · rw [hm] at h
    refine absurd h (key _ (hprint _ ?_))
    intro e he
    rcases List.mem_append.mp he with he | he
    · exact getoptReport_print w e he
    · simp only [helpUsage, List.mem_singleton] at he
      subst he; rfl
  · rw [hm] at h
    exact absurd h (key _ (fun e he => (badConfig_trace w st e he).2))
  · refine ⟨st, hst, hs, hr, ?_, hm⟩
    rw [hm] at h
    obtain ⟨a, b, htr, ha, hb⟩ := submit_trace w
      (getoptReport w ++ (getConfig w st.debug st.configFnames).trace) st
      (getConfig w st.debug st.configFnames).config (strings.Join w.args " ")
    rw [htr] at h
    simp only [List.mem_append, List.mem_singleton] at h
    rcases h with (((h | h) | h) | h) | h
    · exact absurd h (key _ (hprint _ (getoptReport_print w)))
    · exact absurd h (key _ (fun e he => (getConfig_trace w _ _ e he).2))
    · exact absurd h (key _ ha)
    · exact Effect.manageEvent.inj h
    · exact absurd h (key _ hb)

/-! ## The severity option -/

theorem parseOpt_severity_some {st : St} {o : OptArg} {s : String} (ho : isSeverity o)
    (h : severityLoop o.arg severities = some s) :
    parseOpt st o = .next { st with severity := s } := by
  unfold isSeverity at ho
  unfold parseOpt
  rcases ho with ho | ho <;> simp [ho, h]

theorem parseOpt_severity_none {st : St} {o : OptArg} (ho : isSeverity o)
    (h : severityLoop o.arg severities = none) :
    parseOpt st o = .exit ([.stderr (severityText ++ "\n")] ++ helpUsage) 2 := by
  unfold isSeverity at ho
  unfold parseOpt
  rcases ho with ho | ho <;> simp [ho, h]

/-- A non-empty token is a prefix of at most one of the four names: they start
with four different letters. -/
theorem severity_unique {tok a b : String} (hne : tok ≠ "") (ha : a ∈ severities)
    (hb : b ∈ severities) (hpa : strings.HasPrefix a tok = true)
    (hpb : strings.HasPrefix b tok = true) : a = b := by
  obtain ⟨cs⟩ := tok
  cases cs with
  | nil => exact absurd rfl hne
  | cons c cs =>
    simp only [severities, SeverityCritical, SeverityWarning, SeverityError, SeverityInfo,
      List.mem_cons, List.mem_singleton, List.not_mem_nil, or_false] at ha hb
    rcases ha with rfl | rfl | rfl | rfl <;> rcases hb with rfl | rfl | rfl | rfl <;>
      first
      | rfl
      | (exfalso
         simp only [strings.HasPrefix, String.data, List.isPrefixOf, Bool.and_eq_true,
           beq_iff_eq] at hpa hpb
         have h1 := hpa.1
         have h2 := hpb.1
         rw [h1] at h2
         revert h2
         decide)


theorem lastArg_none_of_absent {a b : String} {opts : List OptArg}
    (h : ∀ x ∈ opts, ¬ (x.opt = a ∨ x.opt = b)) : lastArg a b opts = none := by
  unfold lastArg
  have : opts.filter (fun o => decide (o.opt = a ∨ o.opt = b)) = [] := by
    rw [List.filter_eq_nil_iff]
    intro x hx
    simpa using h x hx
  rw [this]
  rfl

/-- C1. Severity resolution in the option loop of `main`: a non-empty token
given to `-s` or `--severity` that is a prefix (letter case respected) of at
least one name of the list critical, warning, error, info sets the severity to
the first name of that list having the token as a prefix, and the loop goes on;
that name is the severity at the end of the loop when the option is the last
severity option. So `c` gives critical, `w` warning, `e` error and `i` info.
With no severity option the severity at the end of the loop is info. -/
theorem severity_first_match (st : St) (o : OptArg) (ho : isSeverity o) (hne : o.arg ≠ "")
    (hex : ∃ name ∈ severities, strings.HasPrefix name o.arg = true) :
    (∃ pre s post, severities = pre ++ s :: post ∧ strings.HasPrefix s o.arg = true ∧
        (∀ x ∈ pre, strings.HasPrefix x o.arg = false) ∧
        (∀ x ∈ severities, strings.HasPrefix x o.arg = true → x = s) ∧
        parseOpt st o = .next { st with severity := s } ∧
        ∀ (w : World) (st2 : St), parseOpts (initSt w) w.opts = .next st2 →
          lastArg "-s" "--severity" w.opts = some o.arg → st2.severity = s) ∧
      parseOpt st ⟨"-s", "c"⟩ = .next { st with severity := "critical" } ∧
      parseOpt st ⟨"-s", "w"⟩ = .next { st with severity := "warning" } ∧
      parseOpt st ⟨"-s", "e"⟩ = .next { st with severity := "error" } ∧
      parseOpt st ⟨"-s", "i"⟩ = .next { st with severity := "info" } ∧
      ∀ (w : World) (st2 : St), parseOpts (initSt w) w.opts = .next st2 →
        (∀ x ∈ w.opts, ¬ isSeverity x) → st2.severity = "info" := by
  refine ⟨?_, rfl, rfl, rfl, rfl, ?_⟩
  · cases hs : severityLoop o.arg severities with
    | none =>
      obtain ⟨name, hmem, hp⟩ := hex
      rw [severityLoop_none.mp hs name hmem] at hp
      cases hp
    | some s =>
      obtain ⟨pre, post, hl, hp, hpre⟩ := severityLoop_some hs
      refine ⟨pre, s, post, hl, hp, hpre, ?_, parseOpt_severity_some ho hs, ?_⟩
      · intro x hx hpx
        exact severity_unique hne hx (severityLoop_mem hs) hpx hp
      · intro w st2 hrun hlast
        have := (parseOpts_next_fields hrun).2.2.2.1
        rw [hlast] at this
        simp only [hs, Option.some.injEq] at this
        exact this.symm
  · intro w st2 hrun hno
    have := (parseOpts_next_fields hrun).2.2.2.1
    rw [lastArg_none_of_absent hno] at this
    simpa [initSt, SeverityInfo] using this

theorem severity_first_match_witness :
    isSeverity ⟨"--severity", "warn"⟩ ∧ "warn" ≠ "" ∧
      (∃ name ∈ severities, strings.HasPrefix name "warn" = true) ∧
      parseOpt (initSt sampleWorld) ⟨"--severity", "warn"⟩ =
        .next { initSt sampleWorld with severity := "warning" } := by
  refine ⟨by decide, by decide, ⟨"warning", by decide, by decide⟩, ?_⟩
  obtain ⟨⟨pre, s, post, -, -, -, huniq, hstep, -⟩, -⟩ :=
    severity_first_match (initSt sampleWorld) ⟨"--severity", "warn"⟩ (by decide) (by decide)
      ⟨"warning", by decide, by decide⟩
  rw [hstep, huniq "warning" (by decide) (by decide)]

theorem main_of_exit {w : World} {pre post : List OptArg} {o : OptArg} {st1 : St}
    {out : List Effect} {code : Nat} (hopts : w.opts = pre ++ o :: post)
    (hpre : parseOpts (initSt w) pre = .next st1) (ho : parseOpt st1 o = .exit out code) :
    main w = ⟨getoptReport w ++ out, .code code⟩ := by
  have : parseOpts (initSt w) w.opts = .exit out code := by
    rw [hopts, parseOpts_append, hpre]
    simp [parseOpts, ho]
  simp [main, this]

/-- C2. A token given to `-s` or `--severity` that is empty or is not a prefix
of any of critical, warning, error, info ends the process with the usage error
and exit code 2: the run prints the severity message and the usage line and
nothing else happens (no severity is assigned, no configuration file is opened,
nothing is submitted). The token is one that `getopt.GetOpt` hands over, which
is never the empty one: an empty word on the command line ends the process with
status 2 inside `getopt.GetOpt`, before the option loop. The token `x` is a
prefix of none of the names. -/
theorem severity_invalid_token_exits (w : World) (pre post : List OptArg) (o : OptArg)
    (st1 : St) (hopts : w.opts = pre ++ o :: post)
    (hpre : parseOpts (initSt w) pre = .next st1) (ho : isSeverity o) (hget : receivable o)
    (htok : o.arg = "" ∨ ∀ name ∈ severities, strings.HasPrefix name o.arg = false) :
    parseOpt st1 o = .exit ([.stderr (severityText ++ "\n")] ++ helpUsage) 2 ∧
      main w = ⟨getoptReport w ++ ([.stderr (severityText ++ "\n")] ++ helpUsage), .code 2⟩ ∧
      (∀ e ∈ (main w).trace, e.isPrint = true) ∧
      (∀ name ∈ severities, strings.HasPrefix name "x" = false) := by
  have hno : ∀ name ∈ severities, strings.HasPrefix name o.arg = false := by
    rcases htok with hempty | hno
    · exact absurd hempty hget
    · exact hno
  have hstep : parseOpt st1 o = .exit ([.stderr (severityText ++ "\n")] ++ helpUsage) 2 :=
    parseOpt_severity_none ho (severityLoop_none.mpr hno)
  have hmain := main_of_exit hopts hpre hstep
  refine ⟨hstep, hmain, ?_, by decide⟩
  rw [hmain]
  intro e he
  rcases List.mem_append.mp he with he | he
  · exact getoptReport_print w e he
  · exact parseOpt_exit_print hstep e he

theorem severity_invalid_token_exits_witness :
    isSeverity ⟨"-s", "x"⟩ ∧ receivable ⟨"-s", "x"⟩ ∧
      (∀ name ∈ severities, strings.HasPrefix name "x" = false) ∧
      (main { sampleWorld with opts := [⟨"-S", "myhost"⟩, ⟨"-s", "x"⟩] }).exit = .code 2 ∧
      (main { sampleWorld with opts := [⟨"-S", "myhost"⟩, ⟨"-s", "x"⟩] }).trace =
        [.stderr (severityText ++ "\n"), .stderr (usageText ++ "\n")] := by
  have h := severity_invalid_token_exits
    { sampleWorld with opts := [⟨"-S", "myhost"⟩, ⟨"-s", "x"⟩] }
    [⟨"-S", "myhost"⟩] [] ⟨"-s", "x"⟩ { initSt sampleWorld with source := "myhost" }
    rfl (by decide) (by decide) (by decide) (Or.inr (by decide))
  refine ⟨by decide, by decide, by decide, ?_⟩
  rw [h.2.1]
  exact ⟨rfl, rfl⟩

/-- The token `C`, whose lower-cased form `c` is a prefix of exactly one name,
is rejected: the run prints the severity message and the usage line and exits
with code 2. -/
theorem uppercase_token_rejected :
    strings.HasPrefix "critical" (lower "C") = true ∧
      (∀ name ∈ severities, strings.HasPrefix name (lower "C") = true → name = "critical") ∧
      main { sampleWorld with opts := [⟨"-s", "C"⟩] } =
        ⟨[.stderr (severityText ++ "\n"), .stderr (usageText ++ "\n")], .code 2⟩ := by
  decide

/-- C3, amended. Severity matching is a prefix match that respects letter
case: a non-empty token given to `-s` or `--severity` that is a prefix of one of
the names critical, warning, error, info is a prefix of that name only and
sets the severity to it; a token that is a prefix of none of them ends the
process with the usage error, exit code 2. Hence the severity of every
submitted event is one of the four names. -/
theorem severity_case_sensitive_match :
    (∀ (st : St) (o : OptArg) (name : String), isSeverity o → o.arg ≠ "" →
        name ∈ severities → strings.HasPrefix name o.arg = true →
        (∀ other ∈ severities, strings.HasPrefix other o.arg = true → other = name) ∧
          parseOpt st o = .next { st with severity := name }) ∧
      (∀ (st : St) (o : OptArg), isSeverity o →
        (∀ name ∈ severities, strings.HasPrefix name o.arg = false) →
        parseOpt st o = .exit ([.stderr (severityText ++ "\n")] ++ helpUsage) 2) ∧
      (∀ (w : World) (ev : V2Event), Effect.manageEvent ev ∈ (main w).trace →
        ev.Payload.Severity ∈ severities) := by
  refine ⟨?_, ?_, ?_⟩
  · intro st o name ho hne hmem hp
    refine ⟨fun other hother hpo => severity_unique hne hother hmem hpo hp, ?_⟩
    cases hs : severityLoop o.arg severities with
    | none =>
      rw [severityLoop_none.mp hs name hmem] at hp
      cases hp
    | some s =>
      obtain ⟨-, -, -, hps, -⟩ := severityLoop_some hs
      rw [parseOpt_severity_some ho hs,
        severity_unique hne (severityLoop_mem hs) hmem hps hp]
  · intro st o ho hno
    exact parseOpt_severity_none ho (severityLoop_none.mpr hno)
  · intro w ev hev
    obtain ⟨st, hrun, -, -, rfl, -⟩ := main_submission hev
    have := (parseOpts_next_fields hrun).2.2.2.1
    cases hl : lastArg "-s" "--severity" w.opts with
    | none =>
      rw [hl] at this
      have hinfo : SeverityInfo ∈ severities := by decide
      simpa [buildEvent, this, initSt] using hinfo
    | some tok =>
      rw [hl] at this
      exact severityLoop_mem this

theorem severity_case_sensitive_match_witness :
    isSeverity ⟨"-s", "err"⟩ ∧ "err" ≠ "" ∧ "error" ∈ severities ∧
      strings.HasPrefix "error" "err" = true ∧
      parseOpt (initSt sampleWorld) ⟨"-s", "err"⟩ =
        .next { initSt sampleWorld with severity := "error" } ∧
      isSeverity ⟨"-s", "Err"⟩ ∧
      (∀ name ∈ severities, strings.HasPrefix name "Err" = false) ∧
      parseOpt (initSt sampleWorld) ⟨"-s", "Err"⟩ =
        .exit ([.stderr (severityText ++ "\n")] ++ helpUsage) 2 ∧
      Effect.manageEvent sampleEvent ∈ (main sampleWorld).trace ∧
      sampleEvent.Payload.Severity ∈ severities :=
  ⟨by decide, by decide, by decide, by decide,
    (severity_case_sensitive_match.1 (initSt sampleWorld) ⟨"-s", "err"⟩ "error" (by decide)
      (by decide) (by decide) (by decide)).2,
    by decide, by decide,
    severity_case_sensitive_match.2.1 (initSt sampleWorld) ⟨"-s", "Err"⟩ (by decide) (by decide),
    by decide,
    severity_case_sensitive_match.2.2 sampleWorld sampleEvent (by decide)⟩

/-! ## The summary -/

theorem spaced_cons (a : String) (rest : List String) :
    spaced (a :: rest) =
      a.data ++ (match rest with
        | [] => []
        | b :: more => ' ' :: spaced (b :: more)) := by
  cases rest <;> simp [spaced]

theorem foldl_space_data (rest : List String) (e : String) :
    (rest.foldl (fun b s => b ++ " " ++ s) e).data = spaced (e :: rest) := by
  induction rest generalizing e with
  | nil => simp [spaced]
  | cons b more ih =>
    rw [List.foldl_cons, ih, spaced_cons (e ++ " " ++ b), spaced_cons e]
    simp only
    rw [spaced_cons b]
    simp [String.data_append]

/-- The result of `strings.Join(args, " ")` is the words in order with exactly
one space between consecutive words. -/
theorem Join_space_data (args : List String) :
    (strings.Join args " ").data = spaced args := by
  cases args with
  | nil => rfl
  | cons e rest => exact foldl_space_data rest e

/-- C4. Whenever an event is submitted, the list of positional words is not
empty and the summary of the event is `strings.Join(args, " ")`: the words in
their order, exactly one space between consecutive words, no space before the
first or after the last. -/
theorem summary_is_joined_words (w : World) (ev : V2Event)
    (h : Effect.manageEvent ev ∈ (main w).trace) :
    w.args ≠ [] ∧ ev.Payload.Summary = strings.Join w.args " " ∧
      ev.Payload.Summary.data = spaced w.args := by
  obtain ⟨st, -, hs, -, rfl, -⟩ := main_submission h
  refine ⟨?_, rfl, Join_space_data w.args⟩
  intro hnil
  rw [hnil] at hs
  exact hs rfl

theorem summary_is_joined_words_witness :
    Effect.manageEvent { sampleEvent with
        Payload := { sampleEvent.Payload with Summary := "disk full on db1" } } ∈
        (main { sampleWorld with args := ["disk", "full", "on", "db1"] }).trace ∧
      "disk full on db1" = strings.Join ["disk", "full", "on", "db1"] " " ∧
      "disk full on db1".data = spaced ["disk", "full", "on", "db1"] :=
  ⟨by decide,
    (summary_is_joined_words { sampleWorld with args := ["disk", "full", "on", "db1"] }
      { sampleEvent with Payload := { sampleEvent.Payload with Summary := "disk full on db1" } }
      (by decide)).2⟩

/-! ## The empty summary -/

/-- With the help option and no positional argument the process prints the
help and exits with code 0. -/
theorem help_without_summary_exits_zero :
    ({ sampleWorld with args := [], opts := [⟨"-h", ""⟩] } : World).args = [] ∧
      main { sampleWorld with args := [], opts := [⟨"-h", ""⟩] } = ⟨helpFull, .code 0⟩ :=
  ⟨rfl, rfl⟩

theorem exit_code_of_exit {st : St} {o : OptArg} {out : List Effect} {code : Nat}
    (h : parseOpt st o = .exit out code) : (isHelp o ∧ code = 0) ∨ (¬ isHelp o ∧ code = 2) := by
  rcases parseOpt_exit h with ⟨hh, hc, -⟩ | ⟨hs, -, hc, -⟩
  · exact Or.inl ⟨hh, hc⟩
  · refine Or.inr ⟨?_, hc⟩
    unfold isSeverity at hs
    unfold isHelp
    rcases hs with hs | hs <;> simp [hs]

/-- C5, amended. When there is no positional argument, and more generally
when the joined summary is empty, the process ends having only printed: no
configuration file is opened and nothing is submitted. Its exit status is 2,
unless a help option (`-h`, `--help`, `--help-setup`) is among the options and
it exits with code 0; with options among the declared flags and no help option
the process calls `os.Exit(2)`. -/
theorem empty_summary_exits (w : World)
    (hs : w.args = [] ∨ strings.Join w.args " " = "") :
    (∀ e ∈ (main w).trace, e.isPrint = true) ∧
      ((main w).exit.status = 2 ∨ ((main w).exit = .code 0 ∧ ∃ o ∈ w.opts, isHelp o)) ∧
      ((∀ o ∈ w.opts, ¬ isHelp o) → (main w).exit.status = 2) ∧
      ((∀ o ∈ w.opts, declared o ∧ ¬ isHelp o) → (main w).exit = .code 2) := by
  have hs2 : strings.Join w.args " " = "" := by
    rcases hs with hs | hs
    · rw [hs]; rfl
    · exact hs
  rcases main_cases_full w with ⟨pre, o, post, st1, out, code, hopts, -, hx, hm⟩ |
    ⟨pre, o, post, st1, v, hopts, -, hx, hm⟩ | ⟨st, -, -, hm⟩ | ⟨st, -, hne, -, -⟩ |
    ⟨st, -, hne, -, -⟩
  · have hmem : o ∈ w.opts := by rw [hopts]; simp
    refine ⟨?_, ?_, ?_, ?_⟩
    · rw [hm]
      intro e he
      rcases List.mem_append.mp he with he | he
      · exact getoptReport_print w e he
      · exact parseOpt_exit_print hx e he
    · rcases exit_code_of_exit hx with ⟨hh, rfl⟩ | ⟨-, rfl⟩
      · exact Or.inr ⟨by rw [hm], o, hmem, hh⟩
      · exact Or.inl (by rw [hm]; rfl)
    · intro hno
      rcases exit_code_of_exit hx with ⟨hh, -⟩ | ⟨-, rfl⟩
      · exact absurd hh (hno o hmem)
      · rw [hm]; rfl
    · intro hno
      rcases exit_code_of_exit hx with ⟨hh, -⟩ | ⟨-, rfl⟩
      · exact absurd hh (hno o hmem).2
      · rw [hm]
  · have hmem : o ∈ w.opts := by rw [hopts]; simp
    refine ⟨?_, Or.inl (by rw [hm]; rfl), fun _ => by rw [hm]; rfl, ?_⟩
    · rw [hm]
      exact getoptReport_print w
    · intro hno
      exact absurd (hno o hmem).1 (parseOpt_panic hx)
  · refine ⟨?_, Or.inl (by rw [hm]; rfl), fun _ => by rw [hm]; rfl, fun _ => by rw [hm]⟩
    rw [hm]
    intro e he
    rcases List.mem_append.mp he with he | he
    · exact getoptReport_print w e he
    · simp only [helpUsage, List.mem_singleton] at he
      subst he; rfl
  · exact absurd hs2 hne
  · exact absurd hs2 hne

theorem empty_summary_exits_witness :
    main { sampleWorld with args := [] } = ⟨helpUsage, .code 2⟩ ∧
      (∀ e ∈ (main { sampleWorld with args := [] }).trace, e.isPrint = true) ∧
      (main { sampleWorld with args := [] }).exit = .code 2 :=
  ⟨by decide,
    (empty_summary_exits { sampleWorld with args := [] } (Or.inl rfl)).1,
    (empty_summary_exits { sampleWorld with args := [] } (Or.inl rfl)).2.2.2 (by decide)⟩

/-! ## The configuration -/

/-- Candidates that all fail, leaving the configuration as it was, are skipped:
the loop goes on from the empty configuration with the candidates after them,
having opened each of them. -/
theorem getConfigLoop_skip (w : World) (debug : Bool) (pre rest : List String)
    (hclean : cleanFailures w pre) (hpre : ∀ x ∈ pre, ¬ loads w Config.zero x)
    (e0 : Option String) (tr : List Effect) :
    ∃ e1, getConfigLoop w debug (pre ++ rest) Config.zero e0 tr =
      getConfigLoop w debug rest Config.zero e1 (tr ++ pre.map .osOpen) := by
  induction pre generalizing e0 tr with
  | nil => exact ⟨e0, by simp⟩
  | cons x pre ih =>
    have hx := hpre x (List.mem_cons_self x pre)
    have hrest : ∀ y ∈ pre, ¬ loads w Config.zero y :=
      fun y hy => hpre y (List.mem_cons_of_mem x hy)
    have hcl : cleanFailures w pre := fun y hy => hclean y (List.mem_cons_of_mem x hy)
    cases hf : w.fs x with
    | openErr e =>
      obtain ⟨e1, h1⟩ := ih hcl hrest (some e) (tr ++ [.osOpen x])
      refine ⟨e1, ?_⟩
      rw [List.cons_append, getConfigLoop_openErr hf, h1]
      simp
    | readErr e =>
      obtain ⟨e1, h1⟩ := ih hcl hrest (some e) (tr ++ [.osOpen x])
      refine ⟨e1, ?_⟩
      rw [List.cons_append, getConfigLoop_readErr hf, h1]
      simp
    | data d =>
      cases hu : (w.unmarshal d Config.zero).2 with
      | none => exact absurd ⟨d, hf, hu⟩ hx
      | some e =>
        obtain ⟨e1, h1⟩ := ih hcl hrest (some e) (tr ++ [.osOpen x])
        refine ⟨e1, ?_⟩
        rw [List.cons_append, getConfigLoop_decodeErr hf hu,
          hclean x (List.mem_cons_self x pre) d Config.zero e hf hu, h1]
        simp

/-- When failed decodings leave the configuration untouched and no candidate
holds both credentials, the loop started on the empty configuration does not
pass the test of line 220. -/
theorem getConfigLoop_not_ok (w : World) (debug : Bool) (fnames : List String)
    (hclean : cleanFailures w fnames) (hno : ∀ f ∈ fnames, ¬ hasBoth w f)
    (e0 : Option String) (tr : List Effect) :
    ¬ (getConfigLoop w debug fnames Config.zero e0 tr).ok := by
  induction fnames generalizing e0 tr with
  | nil =>
    intro h
    exact h.2.1 rfl
  | cons x rest ih =>
    have hcl : cleanFailures w rest := fun y hy => hclean y (List.mem_cons_of_mem x hy)
    have hno2 : ∀ f ∈ rest, ¬ hasBoth w f := fun y hy => hno y (List.mem_cons_of_mem x hy)
    cases hf : w.fs x with
    | openErr e => rw [getConfigLoop_openErr hf]; exact ih hcl hno2 _ _
    | readErr e => rw [getConfigLoop_readErr hf]; exact ih hcl hno2 _ _
    | data d =>
      cases hu : (w.unmarshal d Config.zero).2 with
      | none =>
        rw [getConfigLoop_decoded hf hu]
        intro h
        exact hno x (List.mem_cons_self x rest) ⟨d, hf, h.2.1, h.2.2⟩
      | some e =>
        rw [getConfigLoop_decodeErr hf hu,
          hclean x (List.mem_cons_self x rest) d Config.zero e hf hu]
        exact ih hcl hno2 _ _

theorem lastArg_config {opts : List OptArg} {p : String}
    (h : lastArg "-c" "--config" opts = some p) :
    ∃ earlier, (configArgs opts).reverse = p :: earlier := by
  unfold lastArg at h
  unfold configArgs
  cases hl : (opts.filter fun o => decide (o.opt = "-c" ∨ o.opt = "--config")).getLast? with
  | none =>
    rw [hl] at h
    cases h
  | some o =>
    rw [hl] at h
    simp only [Option.map_some', Option.some.injEq] at h
    obtain ⟨ys, hys⟩ := List.getLast?_eq_some_iff.mp hl
    exact ⟨(ys.map (·.arg)).reverse, by rw [hys]; simp [h]⟩

/-- With two `-c` options whose files both decode, the file of the first one
is not the configuration used, and is not even opened: the run submits with the
credentials of the second. And in `leakWorld` the first candidate that decodes
holds the integration key only, yet `getConfig` returns it together with the
auth token that the first candidate, whose decoding fails, has left. -/
theorem earlier_config_path_not_used :
    (twoWorld.fs "/srv/pd.yml" = .data "authtoken: srvtok\nintegrationkey: srvkey\n" ∧
      twoWorld.unmarshal "authtoken: srvtok\nintegrationkey: srvkey\n" Config.zero =
        (⟨"srvtok", "srvkey", ""⟩, none) ∧
      main twoWorld =
        ⟨[.osOpen "/srv/other.yml", .newClient "othertok",
          .manageEvent { sampleEvent with
            RoutingKey := "otherkey"
            Payload := { sampleEvent.Payload with Source := "box", Severity := "info" } }],
         .code 0⟩) ∧
      (leakWorld.fs "/home/jo/.pd.yml" = .data "authtoken: tok\nloglevel: [1]\n" ∧
        (leakWorld.unmarshal "authtoken: tok\nloglevel: [1]\n" Config.zero).2 =
          some "yaml: unmarshal errors" ∧
        leakWorld.fs "/home/jo/.config/pagerduty.yml" =
          .openErr "open /home/jo/.config/pagerduty.yml: no such file or directory" ∧
        leakWorld.fs "/etc/xdg/pagerduty.yml" = .data "integrationkey: key\n" ∧
        leakWorld.unmarshal "integrationkey: key\n" Config.zero = (⟨"", "key", ""⟩, none) ∧
        getConfig leakWorld false ["/home/jo/.pd.yml", "/home/jo/.config/pagerduty.yml",
            "/etc/xdg/pagerduty.yml"] =
          ⟨⟨"tok", "key", ""⟩, none,
            [.osOpen "/home/jo/.pd.yml", .osOpen "/home/jo/.config/pagerduty.yml",
              .osOpen "/etc/xdg/pagerduty.yml"]⟩) := by
  decide

/-- C6, amended. When the candidates that fail leave the configuration as it
was, `getConfig` returns, with no error, the configuration decoded from the
first candidate in list order that opens, reads and decodes, having opened and
skipped every earlier candidate and without opening any later one. Each `-c`
and `--config` puts its path at the head of the list, so when the path of the
last such option decodes, `getConfig` returns what that file decodes to and
opens no other file, whatever the earlier explicit paths and the default
candidates hold, and that configuration is the one the client and the event
are made from. -/
theorem getConfig_first_success :
    (∀ (w : World) (debug : Bool) (pre post : List String) (f d : String),
        cleanFailures w pre → (∀ x ∈ pre, ¬ loads w Config.zero x) → w.fs f = .data d →
        (w.unmarshal d Config.zero).2 = none →
        getConfig w debug (pre ++ f :: post) =
          ⟨(w.unmarshal d Config.zero).1, none, (pre ++ [f]).map .osOpen ++
            (if debug then [.stdout ("Using config file: " ++ f ++ "\n")] else [])⟩) ∧
      (∀ (w : World) (st : St) (p d : String),
        parseOpts (initSt w) w.opts = .next st →
        lastArg "-c" "--config" w.opts = some p → w.fs p = .data d →
        (w.unmarshal d Config.zero).2 = none →
        (∃ others, st.configFnames = p :: others) ∧
          getConfig w st.debug st.configFnames =
            ⟨(w.unmarshal d Config.zero).1, none, [.osOpen p] ++
              (if st.debug then [.stdout ("Using config file: " ++ p ++ "\n")] else [])⟩ ∧
          (strings.Join w.args " " ≠ "" → (w.unmarshal d Config.zero).1.AuthToken ≠ "" →
            (w.unmarshal d Config.zero).1.IntegrationKey ≠ "" →
            main w = submit w (getoptReport w ++ ([.osOpen p] ++
                (if st.debug then [.stdout ("Using config file: " ++ p ++ "\n")] else [])))
              st (w.unmarshal d Config.zero).1 (strings.Join w.args " "))) := by
  refine ⟨?_, ?_⟩
  · intro w debug pre post f d hclean hpre hf hd
    obtain ⟨e1, h1⟩ := getConfigLoop_skip w debug pre (f :: post) hclean hpre none []
    unfold getConfig
    rw [h1, getConfigLoop_decoded hf hd]
    simp
  · intro w st p d hrun hlast hf hd
    obtain ⟨earlier, hrev⟩ := lastArg_config hlast
    have hfn : st.configFnames = p :: (earlier ++ (initSt w).configFnames) := by
      rw [(parseOpts_next_fields hrun).1, hrev]
      rfl
    have hget : getConfig w st.debug st.configFnames =
        ⟨(w.unmarshal d Config.zero).1, none, [.osOpen p] ++
          (if st.debug then [.stdout ("Using config file: " ++ p ++ "\n")] else [])⟩ := by
      rw [hfn]
      unfold getConfig
      rw [getConfigLoop_decoded hf hd]
      simp
    refine ⟨⟨_, hfn⟩, hget, ?_⟩
    intro hs ha hk
    have hok : (getConfig w st.debug st.configFnames).ok := by
      rw [hget]
      exact ⟨rfl, ha, hk⟩
    have hm : main w = afterOpts w (getoptReport w) st := by
      simp [main, hrun]
    rw [hm, afterOpts_submit hs hok, hget]

theorem getConfig_first_success_witness :
    getConfig sampleWorld false ["/home/jo/.pd.yml", "/home/jo/.config/pagerduty.yml",
          "/etc/xdg/pagerduty.yml"] =
        ⟨⟨"tok", "key", ""⟩, none,
          [.osOpen "/home/jo/.pd.yml", .osOpen "/home/jo/.config/pagerduty.yml"]⟩ ∧
      lastArg "-c" "--config" twoWorld.opts = some "/srv/other.yml" ∧
      main twoWorld =
        ⟨[.osOpen "/srv/other.yml", .newClient "othertok",
          .manageEvent { sampleEvent with
            RoutingKey := "otherkey"
            Payload := { sampleEvent.Payload with Source := "box", Severity := "info" } }],
         .code 0⟩ := by
  refine ⟨?_, by decide, ?_⟩
  · exact getConfig_first_success.1 sampleWorld false ["/home/jo/.pd.yml"]
      ["/etc/xdg/pagerduty.yml"] "/home/jo/.config/pagerduty.yml"
      "authtoken: tok\nintegrationkey: key\n"
      (by
        intro x hx d c e hd
        simp only [List.mem_singleton] at hx
        subst hx
        simp [sampleWorld] at hd)
      (by
        intro x hx hl
        simp only [List.mem_singleton] at hx
        subst hx
        obtain ⟨d, hd, -⟩ := hl
        simp [sampleWorld] at hd)
      (by decide) (by decide)
  · have h := (getConfig_first_success.2 twoWorld
      { initSt twoWorld with
        configFnames := "/srv/other.yml" :: "/srv/pd.yml" :: (initSt twoWorld).configFnames }
      "/srv/other.yml" "authtoken: othertok\nintegrationkey: otherkey\n"
      (by decide) (by decide) (by decide) (by decide)).2.2 (by decide) (by decide) (by decide)
    rw [h]
    decide

/-- With the help option the process prints the help and exits with code 0,
although the summary is not empty and no candidate file holds credentials. -/
theorem help_exits_zero_without_config :
    (∀ f, ¬ hasBoth helpWorld f) ∧ strings.Join helpWorld.args " " ≠ "" ∧
      main helpWorld = ⟨helpFull, .code 0⟩ := by
  refine ⟨?_, by decide, rfl⟩
  rintro f ⟨d, hd, -⟩
  simp [helpWorld] at hd

/-- C7, amended. Take a run that gets past the option loop with a non-empty
summary. If every candidate that fails to decode leaves the configuration as
it was, and no single candidate file holds both a non-empty auth token and a
non-empty integration key, the process prints the setup instructions last and
exits with code 2, and it neither makes the client nor calls `ManageEvent`. -/
theorem no_credentials_exits (w : World) (st : St)
    (hrun : parseOpts (initSt w) w.opts = .next st) (hs : strings.Join w.args " " ≠ "")
    (hclean : cleanFailures w st.configFnames) (hno : ∀ f ∈ st.configFnames, ¬ hasBoth w f) :
    (main w).exit = .code 2 ∧ (∃ tr, (main w).trace = tr ++ helpSetup) ∧
      (∀ e ∈ (main w).trace, e.isClient = false) := by
  have hbad : ¬ (getConfig w st.debug st.configFnames).ok :=
    getConfigLoop_not_ok w st.debug st.configFnames hclean hno none []
  have hm : main w = afterOpts w (getoptReport w) st := by
    simp [main, hrun]
  rw [hm, afterOpts_badConfig hs hbad]
  exact ⟨rfl, ⟨_, rfl⟩, fun e he => (badConfig_trace w st e he).1⟩

theorem no_credentials_exits_witness :
    (main splitWorld).exit = .code 2 ∧
      (main splitWorld).trace = [.osOpen "/home/jo/.pd.yml"] ++ helpSetup := by
  have h := no_credentials_exits splitWorld (initSt splitWorld) (by decide) (by decide)
    (by
      intro fname _ d c e hd he
      simp only [splitWorld] at hd he
      split_ifs at hd <;> cases hd <;> simp [sampleWorld, sampleUnmarshal] at he)
    (by
      rintro f - ⟨d, hd, ha, hk⟩
      simp only [splitWorld] at hd ha hk
      split_ifs at hd <;> cases hd <;> simp [sampleWorld, sampleUnmarshal, Config.zero] at ha hk)
  exact ⟨h.1, rfl⟩

/-- A field set by a candidate whose decoding fails stays in the configuration:
in `leakWorld` no candidate holds both credentials, yet the auth token of the
first candidate, which fails, and the integration key of the last one pass the
test of line 220 together and the event is submitted. -/
theorem failed_candidate_leaves_fields :
    (∀ f, ¬ hasBoth leakWorld f) ∧
      getConfig leakWorld false (initSt leakWorld).configFnames =
        ⟨⟨"tok", "key", ""⟩, none,
          [.osOpen "/home/jo/.pd.yml", .osOpen "/home/jo/.config/pagerduty.yml",
            .osOpen "/etc/xdg/pagerduty.yml"]⟩ ∧
      (main leakWorld).exit = .code 0 ∧
      Effect.newClient "tok" ∈ (main leakWorld).trace := by
  refine ⟨?_, by decide, by decide, by decide⟩
  rintro f ⟨d, hd, ha, hk⟩
  simp only [leakWorld] at hd ha hk
  split_ifs at hd <;> cases hd <;> simp [sampleWorld, sampleUnmarshal, Config.zero] at ha hk

/-! ## The event -/

theorem main_of_next {w : World} {st : St} (hrun : parseOpts (initSt w) w.opts = .next st) :
    main w = afterOpts w (getoptReport w) st := by
  simp [main, hrun]

/-- A run that gets past the option loop with a non-empty summary and a
configuration passing the test of line 220 submits the event built from them. -/
theorem main_submits {w : World} {st : St} (hrun : parseOpts (initSt w) w.opts = .next st)
    (hs : strings.Join w.args " " ≠ "") (hok : (getConfig w st.debug st.configFnames).ok) :
    Effect.manageEvent (buildEvent w st (getConfig w st.debug st.configFnames).config
      (strings.Join w.args " ")) ∈ (main w).trace := by
  rw [main_of_next hrun, afterOpts_submit hs hok]
  obtain ⟨a, b, htr, -, -⟩ := submit_trace w
    (getoptReport w ++ (getConfig w st.debug st.configFnames).trace) st
    (getConfig w st.debug st.configFnames).config (strings.Join w.args " ")
  rw [htr]
  simp

/-- C8. Event assembly. The event of every run that submits one has the action
trigger, the integration key of the loaded configuration as routing key, the
argument of the last `-k` or `--key` option, or else the generated key, as
deduplication key, the static client strings, the joined summary, the argument
of the last `-S` or `--source` option, or else the host name, as source, the
severity resolved from the last `-s` or `--severity` option, or else info, the
time stamp of the clock, and the host and user names as details. Every run that
passes the validation submits that event. With the arguments
`-s c -S myhost "disk full"` and a valid configuration the event has severity
critical, source myhost, summary disk full and action trigger. -/
theorem event_assembly :
    (∀ (w : World) (ev : V2Event), Effect.manageEvent ev ∈ (main w).trace →
      ∃ st, parseOpts (initSt w) w.opts = .next st ∧
        ev.Action = "trigger" ∧
        ev.RoutingKey = (getConfig w st.debug st.configFnames).config.IntegrationKey ∧
        ev.DedupKey = (lastArg "-k" "--key" w.opts).getD w.uuid ∧
        ev.Images = [] ∧ ev.Links = [] ∧
        ev.Client = clientName ∧ ev.ClientURL = clientURL ∧
        ev.Payload.Summary = strings.Join w.args " " ∧
        ev.Payload.Source = (lastArg "-S" "--source" w.opts).getD w.hostname ∧
        (match lastArg "-s" "--severity" w.opts with
          | some tok =>
            severities.find? (fun s => strings.HasPrefix s tok) = some ev.Payload.Severity
          | none => ev.Payload.Severity = SeverityInfo) ∧
        ev.Payload.Timestamp = w.now ∧
        ev.Payload.Component = "" ∧ ev.Payload.Group = "" ∧ ev.Payload.Class = "" ∧
        ev.Payload.Details =
          [("hostname", w.hostname), ("username", w.currentUser.getD "")]) ∧
      (∀ (w : World) (st : St), parseOpts (initSt w) w.opts = .next st →
        strings.Join w.args " " ≠ "" → (getConfig w st.debug st.configFnames).ok →
        Effect.manageEvent (buildEvent w st (getConfig w st.debug st.configFnames).config
          (strings.Join w.args " ")) ∈ (main w).trace) ∧
      (∀ (w : World), w.opts = [⟨"-s", "c"⟩, ⟨"-S", "myhost"⟩] → w.args = ["disk full"] →
        (getConfig w false (initSt w).configFnames).ok →
        ∃ ev, Effect.manageEvent ev ∈ (main w).trace ∧ ev.Payload.Severity = "critical" ∧
          ev.Payload.Source = "myhost" ∧ ev.Payload.Summary = "disk full" ∧
          ev.Action = "trigger") := by
  refine ⟨?_, fun w st => main_submits, ?_⟩
  · intro w ev hev
    obtain ⟨st, hrun, -, -, rfl, -⟩ := main_submission hev
    obtain ⟨-, hk, hS, hsev, -⟩ := parseOpts_next_fields hrun
    refine ⟨st, hrun, rfl, rfl, ?_, rfl, rfl, rfl, rfl, rfl, ?_, ?_, rfl, rfl, rfl, rfl, rfl⟩
    · simpa [buildEvent, initSt] using hk
    · simpa [buildEvent, initSt] using hS
    · cases hl : lastArg "-s" "--severity" w.opts with
      | none =>
        rw [hl] at hsev
        simpa [buildEvent, initSt] using hsev
      | some tok =>
        rw [hl] at hsev
        simp only [buildEvent]
        rw [← severityLoop_eq_find]
        exact hsev
  · intro w hopts hargs hok
    have hrun : parseOpts (initSt w) w.opts =
        .next { initSt w with severity := "critical", source := "myhost" } := by
      rw [hopts]
      rfl
    have hs : strings.Join w.args " " ≠ "" := by
      rw [hargs]
      decide
    have h := main_submits hrun hs hok
    rw [hargs] at h
    exact ⟨_, h, rfl, rfl, rfl, rfl⟩

theorem event_assembly_witness :
    Effect.manageEvent sampleEvent ∈ (main sampleWorld).trace ∧
      sampleEvent.DedupKey =
        (lastArg "-k" "--key" sampleWorld.opts).getD sampleWorld.uuid ∧
      (∃ ev, Effect.manageEvent ev ∈ (main sampleWorld).trace ∧
        ev.Payload.Severity = "critical" ∧ ev.Payload.Source = "myhost" ∧
        ev.Payload.Summary = "disk full" ∧ ev.Action = "trigger") := by
  refine ⟨by decide, ?_, event_assembly.2.2 sampleWorld rfl rfl (by decide)⟩
  obtain ⟨st, -, -, -, hk, -⟩ := event_assembly.1 sampleWorld sampleEvent (by decide)
  exact hk

/-! ## The candidate list -/

/-- C9. The candidate list handed to `getConfig` is, in order: the arguments
of the `-c` and `--config` options, the last one given first (so the explicit
path first when there is one such option), then `.pd.yml` joined to `$HOME`,
then `pagerduty.yml` joined to `$XDG_CONFIG_HOME`, or to `.config` joined to
`$HOME` when that variable is unset, then `pagerduty.yml` joined to each
element of `$XDG_CONFIG_DIRS` split on the colon, in order, the variable
counting as `/etc/xdg` when unset. Two runs with the same environment and the
same `-c` and `--config` arguments have the same list. -/
theorem config_candidates (w : World) (st : St)
    (hrun : parseOpts (initSt w) w.opts = .next st) :
    st.configFnames =
        (configArgs w.opts).reverse ++
          ([filepath.Join [(w.env "HOME").getD "", ".pd.yml"],
            filepath.Join
              [(match w.env "XDG_CONFIG_HOME" with
                | some d => d
                | none => filepath.Join [(w.env "HOME").getD "", ".config"]),
               "pagerduty.yml"]] ++
            (strings.Split ((w.env "XDG_CONFIG_DIRS").getD "/etc/xdg") ':').map
              (fun d => filepath.Join [d, "pagerduty.yml"])) ∧
      main w = afterOpts w (getoptReport w) st ∧
      (∀ p, lastArg "-c" "--config" w.opts = some p → st.configFnames.head? = some p) ∧
      (∀ (w2 : World) (st2 : St), w2.env = w.env → configArgs w2.opts = configArgs w.opts →
        parseOpts (initSt w2) w2.opts = .next st2 → st2.configFnames = st.configFnames) := by
  have hinit : ∀ v : World, (initSt v).configFnames =
      [filepath.Join [(v.env "HOME").getD "", ".pd.yml"],
        filepath.Join
          [(match v.env "XDG_CONFIG_HOME" with
            | some d => d
            | none => filepath.Join [(v.env "HOME").getD "", ".config"]),
           "pagerduty.yml"]] ++
        (strings.Split ((v.env "XDG_CONFIG_DIRS").getD "/etc/xdg") ':').map
          (fun d => filepath.Join [d, "pagerduty.yml"]) := by
    intro v
    simp only [initSt, GetXdgConfigHome, GetXdgConfigDirs, World.Getenv]
    cases v.env "XDG_CONFIG_DIRS" <;> rfl
  have hfn := (parseOpts_next_fields hrun).1
  refine ⟨by rw [hfn, hinit], main_of_next hrun, ?_, ?_⟩
  · intro p hp
    obtain ⟨earlier, hrev⟩ := lastArg_config hp
    rw [hfn, hrev]
    rfl
  · intro w2 st2 henv hargs hrun2
    rw [(parseOpts_next_fields hrun2).1, hfn, hargs, hinit, hinit, henv]

theorem config_candidates_witness :
    (∃ st, parseOpts (initSt xdgWorld) xdgWorld.opts = .next st ∧
      st.configFnames = ["/srv/other.yml", "/srv/pd.yml", "/home/jo/.pd.yml",
        "/home/jo/cfg/pagerduty.yml", "/etc/xdg/pagerduty.yml", "/opt/etc/pagerduty.yml"]) ∧
      (initSt sampleWorld).configFnames = ["/home/jo/.pd.yml",
        "/home/jo/.config/pagerduty.yml", "/etc/xdg/pagerduty.yml"] := by
  refine ⟨⟨{ initSt xdgWorld with
      configFnames := "/srv/other.yml" :: "/srv/pd.yml" :: (initSt xdgWorld).configFnames },
    by decide, ?_⟩, by decide⟩
  rw [(config_candidates xdgWorld _ (by decide)).1]
  decide

/-! ## The exit code -/

theorem filter_submission_nil {l : List Effect} (h : ∀ e ∈ l, e.isSubmission = false) :
    l.filter Effect.isSubmission = [] := by
  rw [List.filter_eq_nil_iff]
  intro e he
  simp [h e he]

/-- C10. Exit code of the submission step. A run that calls `ManageEvent` got
past the option loop with a non-empty summary and a configuration with both
credentials; it calls `ManageEvent` exactly once and exits with code 0 when
the client returns no error and with code 1 when it returns one. Every run
that passes the validation calls `ManageEvent`. When the options are among the
declared flags, exit status 2 comes from `os.Exit(2)` in a run that never uses
the client, and that run has an invalid severity token, an empty summary, or a
configuration that does not load or lacks a credential. -/
theorem exit_code_contract (w : World) :
    (∀ ev, Effect.manageEvent ev ∈ (main w).trace →
      (main w).trace.filter Effect.isSubmission = [.manageEvent ev] ∧
        ∃ st, parseOpts (initSt w) w.opts = .next st ∧ strings.Join w.args " " ≠ "" ∧
          (getConfig w st.debug st.configFnames).ok ∧
          (main w).exit =
            match (w.api (getConfig w st.debug st.configFnames).config.AuthToken
              st.debug ev).err with
            | none => .code 0
            | some _ => .code 1) ∧
      (∀ st, parseOpts (initSt w) w.opts = .next st → strings.Join w.args " " ≠ "" →
        (getConfig w st.debug st.configFnames).ok →
        ∃ ev, Effect.manageEvent ev ∈ (main w).trace) ∧
      ((∀ o ∈ w.opts, declared o) → (main w).exit.status = 2 →
        (main w).exit = .code 2 ∧ (∀ e ∈ (main w).trace, e.isClient = false) ∧
          ((∃ pre o post st1, w.opts = pre ++ o :: post ∧
              parseOpts (initSt w) pre = .next st1 ∧ isSeverity o ∧
              ∀ name ∈ severities, strings.HasPrefix name o.arg = false) ∨
            (∃ st, parseOpts (initSt w) w.opts = .next st ∧ strings.Join w.args " " = "") ∨
            (∃ st, parseOpts (initSt w) w.opts = .next st ∧ strings.Join w.args " " ≠ "" ∧
              ¬ (getConfig w st.debug st.configFnames).ok))) := by
  refine ⟨?_, fun st hrun hs hok => ⟨_, main_submits hrun hs hok⟩, ?_⟩
  · intro ev hev
    obtain ⟨st, hrun, hs, hok, rfl, hm⟩ := main_submission hev
    refine ⟨?_, st, hrun, hs, hok, ?_⟩
    · obtain ⟨a, b, htr, ha, hb⟩ := submit_trace w
        (getoptReport w ++ (getConfig w st.debug st.configFnames).trace) st
        (getConfig w st.debug st.configFnames).config (strings.Join w.args " ")
      rw [hm, htr]
      simp only [List.filter_append]
      rw [filter_submission_nil ha, filter_submission_nil hb,
        filter_submission_nil (fun e he => (isPrint_not_client (getoptReport_print w e he)).2.2),
        filter_submission_nil (fun e he => (getConfig_trace w _ _ e he).2)]
      simp [List.filter, Effect.isSubmission]
    · rw [hm, submit_exit]
  · intro hdecl hstatus
    have hclient : ∀ l : List Effect, (∀ e ∈ l, e.isPrint = true) →
        ∀ e ∈ l, e.isClient = false := fun l hl e he => (isPrint_not_client (hl e he)).1
    rcases main_cases_full w with ⟨pre, o, post, st1, out, code, hopts, hpre, hx, hm⟩ |
      ⟨pre, o, post, st1, v, hopts, -, hx, -⟩ | ⟨st, hrun, hs, hm⟩ | ⟨st, hrun, hs, hbad, hm⟩ |
      ⟨st, hrun, hs, hok, hm⟩
    · rw [hm] at hstatus ⊢
      simp only [Exit.status] at hstatus
      subst hstatus
      refine ⟨rfl, ?_, Or.inl ?_⟩
      · apply hclient
        intro e he
        rcases List.mem_append.mp he with he | he
        · exact getoptReport_print w e he
        · exact parseOpt_exit_print hx e he
      · rcases parseOpt_exit hx with ⟨-, h0, -⟩ | ⟨hsev, hnone, -, -⟩
        · cases h0
        · exact ⟨pre, o, post, st1, hopts, hpre, hsev, severityLoop_none.mp hnone⟩
    · exact absurd (hdecl o (by rw [hopts]; simp)) (parseOpt_panic hx)
    · rw [hm]
      refine ⟨rfl, ?_, Or.inr (Or.inl ⟨st, hrun, hs⟩)⟩
      apply hclient
      intro e he
      rcases List.mem_append.mp he with he | he
      · exact getoptReport_print w e he
      · simp only [helpUsage, List.mem_singleton] at he
        subst he; rfl
    · rw [hm]
      exact ⟨rfl, fun e he => (badConfig_trace w st e he).1,
        Or.inr (Or.inr ⟨st, hrun, hs, hbad⟩)⟩
    · rw [hm, submit_exit] at hstatus
      cases herr : (w.api (getConfig w st.debug st.configFnames).config.AuthToken st.debug
        (buildEvent w st (getConfig w st.debug st.configFnames).config
          (strings.Join w.args " "))).err <;> simp [herr, Exit.status] at hstatus

theorem exit_code_contract_witness :
    (main sampleWorld).exit = .code 0 ∧ (main failWorld).exit = .code 1 ∧
      (main failWorld).trace.filter Effect.isSubmission = [.manageEvent sampleEvent] ∧
      (∀ o ∈ splitWorld.opts, declared o) ∧ (main splitWorld).exit.status = 2 ∧
      (main splitWorld).exit = .code 2 := by
  obtain ⟨h1, st, -, -, -, hexit⟩ := (exit_code_contract failWorld).1 sampleEvent (by decide)
  refine ⟨by decide, by decide, h1, by decide, by decide, ?_⟩
  exact ((exit_code_contract splitWorld).2.2 (by decide) (by decide)).1

end PdTrigger
